import Mathlib

/-!
Verification development for the prover-rank-fetcher pipeline (main.go).

The program is a linear pipeline: parse two local date-times, POST a JSON
request, decode a JSON envelope of prover records, load an address→label CSV
map, build report rows (rank, label, formatted credit amounts, speed in
mega-units, two hardware counts by truncating division), and save a
spreadsheet.

Shallow embedding conventions:
* JSON bodies are strings; `parseJson` models Go's `encoding/json` scanner
  (a body is "valid JSON" iff `parseJson` succeeds), and the `decode*`
  functions model `json.Unmarshal` into the Go struct types of main.go,
  including: unknown fields ignored, ASCII-case-insensitive key matching,
  `null` leaving the current value, `json.Number` accepting both number
  literals and strings whose content is a valid JSON number.
* `json.Number.Float64` (strconv.ParseFloat) is modelled by `parseFloat64`:
  the exact decimal value is rounded to the nearest IEEE754 binary64 value
  (ties to even) by `roundF64`, kept as a dyadic rational; magnitudes past
  (2^54−1)·2^970 overflow to a signed infinity together with an error flag,
  syntax errors yield 0 with an error flag (Go reports ErrRange only on
  overflow).  Float division by the program's constants (1e6, 15000, 43000,
  all exactly representable) is exact rational division followed by the same
  rounding, which is IEEE division.  The sign of a zero is not tracked (the
  program never branches on it).  Go's `int(float64)` conversion truncates
  toward zero and is implementation-specific out of range (minInt64 on
  amd64); `GoFloat.toInt` mirrors that.
* The label file is read by a model of `encoding/csv.Reader` under its
  default settings: blank lines are skipped, a `\r\n` line ending is
  normalized, quoted fields (with `""` escapes, possibly spanning lines)
  are handled, a bare quote in an unquoted field or a malformed quoted
  field is an error, and the first record's field count is enforced on
  every later record (FieldsPerRecord).  The Go map built by
  `readClusterNames` is modelled as an association list where insertion
  conses (so the most recent binding shadows older ones) and `mapLookup`
  returns the zero value "" when the key is absent, exactly like a Go map
  read.
* The process-local timezone used by `parseDateTime` is modelled as a fixed
  offset (seconds east of UTC) passed explicitly; Go's civil-date↔epoch
  conversions (`time.Date`/`time.Unix`) are modelled by `daysFromCivil` /
  `civilFromDays` over the proleptic Gregorian calendar.
* The environment of one run (HTTP response or transport failure, label file
  content or open failure) is an explicit `Env`; `runAction` mirrors the cli
  Action of `main` and also returns the ordered list of pipeline stages that
  began, so that control-flow claims are statable.
-/

namespace ProverRank

/-! ### Characters and digits -/

def digitVal (c : Char) : Nat := c.toNat - 48

def digitChar (n : Nat) : Char := Char.ofNat (48 + n)

/-! ### JSON values

The abstract syntax of JSON.  `num` keeps the literal text of a number
token, exactly as Go's `json.Number` does. -/

inductive Json where
  | null : Json
  | bool : Bool → Json
  | num : String → Json
  | str : String → Json
  | arr : List Json → Json
  | obj : List (String × Json) → Json

/-! ### Go's JSON number grammar

`isValidNumber` models `encoding/json.isValidNumber` (RFC 8259):
`-?(0|[1-9][0-9]*)(\.[0-9]+)?([eE][+-]?[0-9]+)?`, nonempty. -/

def chompInt : List Char → Option (List Char)
  | [] => none
  | '0' :: rest => some rest
  | c :: rest => if c.isDigit then some (rest.dropWhile Char.isDigit) else none

def chompFrac : List Char → Option (List Char)
  | '.' :: rest =>
      match rest.span Char.isDigit with
      | ([], _) => none
      | (_, rest') => some rest'
  | cs => some cs

def chompExp : List Char → Option (List Char)
  | c :: rest =>
      if c = 'e' ∨ c = 'E' then
        let rest' := match rest with
          | s :: tl => if s = '+' ∨ s = '-' then tl else rest
          | [] => rest
        match rest'.span Char.isDigit with
        | ([], _) => none
        | (_, rest'') => some rest''
      else some (c :: rest)
  | [] => some []

def isValidNumber (s : String) : Bool :=
  let cs := s.toList
  let cs := match cs with
    | '-' :: rest => rest
    | _ => cs
  match chompInt cs with
  | none => false
  | some cs =>
    match chompFrac cs with
    | none => false
    | some cs =>
      match chompExp cs with
      | none => false
      | some cs => cs.isEmpty

/-! ### JSON text parsing

`parseJson` models the `encoding/json` scanner: a response body is valid
JSON exactly when it consists of one JSON value surrounded by optional
whitespace.  String escapes are handled; `\uXXXX` becomes the single code
unit (surrogate-pair combination is not modelled, no claim exercises it). -/

def isJsonWs (c : Char) : Bool := c = ' ' ∨ c = '\t' ∨ c = '\n' ∨ c = '\r'

def skipWs (cs : List Char) : List Char := cs.dropWhile isJsonWs

def isHexDigit (c : Char) : Bool := c.isDigit ∨ ('a' ≤ c ∧ c ≤ 'f') ∨ ('A' ≤ c ∧ c ≤ 'F')

def hexVal (c : Char) : Nat :=
  if c.isDigit then c.toNat - 48
  else if 'a' ≤ c ∧ c ≤ 'f' then c.toNat - 87
  else c.toNat - 55

def isNumChar (c : Char) : Bool :=
  c.isDigit ∨ c = '-' ∨ c = '+' ∨ c = '.' ∨ c = 'e' ∨ c = 'E'

/-- Scan a string literal body (after the opening quote), returning the
decoded characters and the remainder after the closing quote. -/
def scanStr : List Char → Option (List Char × List Char)
  | [] => none
  | '"' :: rest => some ([], rest)
  | '\\' :: e :: rest =>
      match e with
      | '"' => (scanStr rest).map (fun p => ('"' :: p.1, p.2))
      | '\\' => (scanStr rest).map (fun p => ('\\' :: p.1, p.2))
      | '/' => (scanStr rest).map (fun p => ('/' :: p.1, p.2))
      | 'b' => (scanStr rest).map (fun p => (Char.ofNat 8 :: p.1, p.2))
      | 'f' => (scanStr rest).map (fun p => (Char.ofNat 12 :: p.1, p.2))
      | 'n' => (scanStr rest).map (fun p => ('\n' :: p.1, p.2))
      | 'r' => (scanStr rest).map (fun p => (Char.ofNat 13 :: p.1, p.2))
      | 't' => (scanStr rest).map (fun p => ('\t' :: p.1, p.2))
      | 'u' =>
          match rest with
          | h1 :: h2 :: h3 :: h4 :: rest' =>
              if isHexDigit h1 ∧ isHexDigit h2 ∧ isHexDigit h3 ∧ isHexDigit h4 then
                let code := ((hexVal h1 * 16 + hexVal h2) * 16 + hexVal h3) * 16 + hexVal h4
                (scanStr rest').map (fun p => (Char.ofNat code :: p.1, p.2))
              else none
          | _ => none
      | _ => none
  | c :: rest =>
      if c.toNat < 32 then none
      else (scanStr rest).map (fun p => (c :: p.1, p.2))

mutual

/-- Parse one JSON value; leading whitespace is skipped by the caller. -/
def parseValue : Nat → List Char → Option (Json × List Char)
  | 0, _ => none
  | _ + 1, [] => none
  | fuel + 1, c :: cs =>
      match c with
      | '{' => (parseFields fuel true (skipWs cs)).map (fun p => (Json.obj p.1, p.2))
      | '[' => (parseElems fuel true (skipWs cs)).map (fun p => (Json.arr p.1, p.2))
      | '"' => (scanStr cs).map (fun p => (Json.str (String.mk p.1), p.2))
      | 't' => match cs with
          | 'r' :: 'u' :: 'e' :: rest => some (Json.bool true, rest)
          | _ => none
      | 'f' => match cs with
          | 'a' :: 'l' :: 's' :: 'e' :: rest => some (Json.bool false, rest)
          | _ => none
      | 'n' => match cs with
          | 'u' :: 'l' :: 'l' :: rest => some (Json.null, rest)
          | _ => none
      | _ =>
          match (c :: cs).span isNumChar with
          | (lit, rest) =>
              if isValidNumber (String.mk lit) then some (Json.num (String.mk lit), rest)
              else none

/-- Parse object members after the opening brace (whitespace already
skipped); `first` is true before any member has been read. -/
def parseFields : Nat → Bool → List Char → Option (List (String × Json) × List Char)
  | 0, _, _ => none
  | _ + 1, _, [] => none
  | fuel + 1, first, c :: cs =>
      if c = '}' ∧ first then some ([], cs)
      else if c = '"' then
        match scanStr cs with
        | none => none
        | some (key, rest) =>
            match skipWs rest with
            | ':' :: rest' =>
                match parseValue fuel (skipWs rest') with
                | none => none
                | some (v, rest'') =>
                    match skipWs rest'' with
                    | ',' :: rest''' =>
                        match skipWs rest''' with
                        | '"' :: more =>
                            (parseFields fuel false ('"' :: more)).map
                              (fun p => ((String.mk key, v) :: p.1, p.2))
                        | _ => none
                    | '}' :: rest''' => some ([(String.mk key, v)], rest''')
                    | _ => none
            | _ => none
      else none

/-- Parse array elements after the opening bracket (whitespace already
skipped); `first` is true before any element has been read. -/
def parseElems : Nat → Bool → List Char → Option (List Json × List Char)
  | 0, _, _ => none
  | _ + 1, _, [] => none
  | fuel + 1, first, c :: cs =>
      if c = ']' ∧ first then some ([], cs)
      else
        match parseValue fuel (c :: cs) with
        | none => none
        | some (v, rest) =>
            match skipWs rest with
            | ',' :: rest' =>
                (parseElems fuel false (skipWs rest')).map (fun p => (v :: p.1, p.2))
            | ']' :: rest' => some ([v], rest')
            | _ => none

end

/-- A response body is valid JSON iff it is one value plus whitespace. -/
def parseJson (s : String) : Option Json :=
  let cs := skipWs s.toList
  match parseValue (s.toList.length + 1) cs with
  | none => none
  | some (j, rest) => if skipWs rest = [] then some j else none

/-! ### The Prover record (struct Prover of main.go)

`json.Number` has underlying type string; absent fields keep the zero
value `""`. -/

structure Prover where
  Address : String := ""
  TotalPuzzleCredits : String := ""
  TotalPuzzleCreditsPercentage : String := ""
  DailyPuzzleCredits : String := ""
  DailyPuzzleCreditsPercentage : String := ""
  NetworkSpeed : String := ""
  NetworkSpeedPercentage : String := ""
deriving DecidableEq

/-! ### json.Unmarshal into the envelope struct -/

/-- ASCII lower-casing, as encoding/json's foldName does. -/
def lowerAscii (c : Char) : Char :=
  if 'A' ≤ c ∧ c ≤ 'Z' then Char.ofNat (c.toNat + 32) else c

/-- ASCII-case-insensitive key match, modelling encoding/json field
matching (exact tag match or case-folded match). -/
def keyMatches (k tag : String) : Bool :=
  k.toList.map lowerAscii == tag.toList.map lowerAscii

/-- Decode a JSON value into a string-typed struct field, given the
current field value (null leaves it unchanged). -/
def decodeStrField (cur : String) : Json → Except String String
  | Json.str s => .ok s
  | Json.null => .ok cur
  | _ => .error "cannot unmarshal into string field"

/-- Decode a JSON value into a json.Number field: a number literal is
stored verbatim; a JSON string is accepted iff its content is a valid
JSON number; null leaves the current value. -/
def decodeNumField (cur : String) : Json → Except String String
  | Json.num lit => if isValidNumber lit then .ok lit else .error "invalid number literal"
  | Json.str s => if isValidNumber s then .ok s else .error "invalid number literal"
  | Json.null => .ok cur
  | _ => .error "cannot unmarshal into Number field"

/-- Apply one object member to a Prover being decoded; unknown keys are
ignored. -/
def applyProverField (p : Prover) (k : String) (v : Json) : Except String Prover :=
  if keyMatches k "Address" then
    (decodeStrField p.Address v).map (fun s => { p with Address := s })
  else if keyMatches k "TotalPuzzleCredits" then
    (decodeNumField p.TotalPuzzleCredits v).map (fun s => { p with TotalPuzzleCredits := s })
  else if keyMatches k "TotalPuzzleCreditsPercentage" then
    (decodeStrField p.TotalPuzzleCreditsPercentage v).map
      (fun s => { p with TotalPuzzleCreditsPercentage := s })
  else if keyMatches k "DailyPuzzleCredits" then
    (decodeNumField p.DailyPuzzleCredits v).map (fun s => { p with DailyPuzzleCredits := s })
  else if keyMatches k "DailyPuzzleCreditsPercentage" then
    (decodeStrField p.DailyPuzzleCreditsPercentage v).map
      (fun s => { p with DailyPuzzleCreditsPercentage := s })
  else if keyMatches k "NetworkSpeed" then
    (decodeNumField p.NetworkSpeed v).map (fun s => { p with NetworkSpeed := s })
  else if keyMatches k "NetworkSpeedPercentage" then
    (decodeStrField p.NetworkSpeedPercentage v).map
      (fun s => { p with NetworkSpeedPercentage := s })
  else .ok p

def applyProverFields (p : Prover) : List (String × Json) → Except String Prover
  | [] => .ok p
  | (k, v) :: rest =>
      match applyProverField p k v with
      | .error e => .error e
      | .ok p' => applyProverFields p' rest

/-- Decode a JSON value into a Prover, merging into an existing value
(Go decodes into the existing struct; null is a no-op). -/
def decodeProverInto (init : Prover) : Json → Except String Prover
  | Json.obj fields => applyProverFields init fields
  | Json.null => .ok init
  | _ => .error "cannot unmarshal into Prover"

def decodeProverElems (init : List Prover) : List Json → Except String (List Prover)
  | [] => .ok []
  | j :: rest =>
      match decodeProverInto (init.headD {}) j with
      | .error e => .error e
      | .ok p =>
          match decodeProverElems init.tail rest with
          | .error e => .error e
          | .ok ps => .ok (p :: ps)

/-- Decode a JSON value into a []Prover slice, merging into the existing
slice elements (Go reuses the backing array); null resets to nil. -/
def decodeProverList (init : List Prover) : Json → Except String (List Prover)
  | Json.arr xs => decodeProverElems init xs
  | Json.null => .ok []
  | _ => .error "cannot unmarshal into slice"

def applyEnvelopeFields (acc : List Prover) : List (String × Json) → Except String (List Prover)
  | [] => .ok acc
  | (k, v) :: rest =>
      if keyMatches k "data" then
        match decodeProverList acc v with
        | .error e => .error e
        | .ok ps => applyEnvelopeFields ps rest
      else applyEnvelopeFields acc rest

/-- Decode the anonymous envelope struct of fetchProverRankList:
a struct with a single field Data tagged "data". -/
def decodeEnvelope : Json → Except String (List Prover)
  | Json.obj fields => applyEnvelopeFields [] fields
  | Json.null => .ok []
  | _ => .error "cannot unmarshal into envelope"

/-! ### fetchProverRankList -/

structure HttpResponse where
  status : Nat
  body : String
deriving DecidableEq

def requestPayload (startTime endTime : Int) : String :=
  "\x7b\"start_time\": " ++ toString startTime ++ ", \"end_time\": " ++ toString endTime ++ "\x7d"

/-- Model of fetchProverRankList: the request payload is built from the
time window; the response (or transport failure, `none`) comes from the
environment.  A non-200 status is rejected before the body is decoded. -/
def fetchProverRankList (startTime endTime : Int) (resp : Option HttpResponse) :
    Except String (List Prover) :=
  let _payload := requestPayload startTime endTime
  match resp with
  | none => .error "transport failure"
  | some r =>
      if r.status ≠ 200 then .error ("failed to get data: " ++ toString r.status)
      else
        match parseJson r.body with
        | none => .error "unmarshal: invalid JSON"
        | some j => decodeEnvelope j

/-! ### strconv.ParseFloat model (json.Number.Float64) -/

/-- An exact rational written as an unreduced fraction num/den with a
positive denominator; every operation below keeps den positive.  Finite
float64 values are carried this way so that all computations reduce in
the kernel; `Frac.toRat` gives the denoted rational for semantic
statements. -/
structure Frac where
  num : Int
  den : Nat
deriving DecidableEq

/-- The rational a fraction denotes. -/
def Frac.toRat (f : Frac) : ℚ := (f.num : ℚ) / (f.den : ℚ)

/-- A Go float64 value as used by this program: a finite value (kept
exact) or a signed infinity. -/
inductive GoFloat where
  | finite : Frac → GoFloat
  | posInf : GoFloat
  | negInf : GoFloat
deriving DecidableEq

/-- Decimal-literal grammar of strconv.ParseFloat restricted to the
shapes a json.Number can hold (sign, digits with optional dot, optional
exponent); returns the exact decimal value. -/
def parseFloatDec (s : String) : Option Frac :=
  let cs := s.toList
  let (neg, cs) := match cs with
    | '-' :: rest => (true, rest)
    | '+' :: rest => (false, rest)
    | _ => (false, cs)
  let (ip, cs) := cs.span Char.isDigit
  let (fp, cs) := match cs with
    | '.' :: rest =>
        match rest.span Char.isDigit with
        | (f, rest') => (f, rest')
    | _ => ([], cs)
  if ip.isEmpty ∧ fp.isEmpty then none
  else
    let (expOk, expVal, cs) := match cs with
      | e :: rest =>
          if e = 'e' ∨ e = 'E' then
            let (esign, rest') := match rest with
              | '-' :: tl => ((-1 : Int), tl)
              | '+' :: tl => ((1 : Int), tl)
              | _ => ((1 : Int), rest)
            match rest'.span Char.isDigit with
            | ([], _) => (false, (0 : Int), rest)
            | (ds, rest'') =>
                (true, esign * (ds.foldl (fun a c => a * 10 + digitVal c) 0 : Nat), rest'')
          else (true, (0 : Int), e :: rest)
      | [] => (true, (0 : Int), [])
    if ¬ expOk ∨ ¬ cs.isEmpty then none
    else
      let mant : Nat := (ip ++ fp).foldl (fun a c => a * 10 + digitVal c) 0
      let e : Int := expVal - fp.length
      let mag : Frac :=
        if 0 ≤ e then ⟨((mant * 10 ^ e.toNat : Nat) : Int), 1⟩
        else ⟨(mant : Int), 10 ^ (-e).toNat⟩
      some (if neg then ⟨-mag.num, mag.den⟩ else mag)

/-! ### IEEE754 binary64 rounding -/

/-- Floor of log2, with a fuel bound on the recursion (the fuel is
always passed as the number itself, which bounds the chain); numbers of
64 bits or more are cut down a whole limb at a time so that the
recursion stays shallow even for huge inputs. -/
def log2fuel : Nat → Nat → Nat
  | 0, _ => 0
  | fuel + 1, n =>
      if 2 ^ 64 ≤ n then log2fuel fuel (n / 2 ^ 64) + 64
      else if 2 ≤ n then log2fuel fuel (n / 2) + 1 else 0

/-- Floor of log2 n, for n ≥ 1. -/
def nlog2 (n : Nat) : Nat := log2fuel n n

/-- a/b rounded to the nearest integer, ties to even (for b > 0). -/
def rneDiv (a b : Nat) : Nat :=
  let t := a / b
  let r := a % b
  if 2 * r < b then t
  else if b < 2 * r then t + 1
  else if t % 2 = 0 then t else t + 1

/-- Floor of log2 (n/d) for n, d ≥ 1: the candidate nlog2 n − nlog2 d
is decremented when 2^candidate exceeds n/d (the comparison is written
so that one of the two Nat subtractions is zero). -/
def ilog2 (n d : Nat) : Int :=
  let a := nlog2 n
  let b := nlog2 d
  if d * 2 ^ (a - b) ≤ n * 2 ^ (b - a) then (a : Int) - b else (a : Int) - b - 1

/-- Round the positive rational n/d (n, d ≥ 1) to the nearest IEEE754
binary64 value, ties to even: a normal value is m·2^(e−52) with
2^52 ≤ m < 2^53, a subnormal value is a multiple of 2^−1074, and a
rounded significand of 2^53 carries into the next binade; past
exponent 1023 the result is +Inf (so the overflow threshold is the
usual (2^54−1)·2^970 midpoint). -/
def roundF64Pos (n d : Nat) : GoFloat :=
  let e : Int := ilog2 n d
  if e < -1022 then
    GoFloat.finite ⟨(rneDiv (n * 2 ^ 1074) d : Int), 2 ^ 1074⟩
  else
    let m := if e ≤ 52 then rneDiv (n * 2 ^ (52 - e).toNat) d
             else rneDiv n (d * 2 ^ (e - 52).toNat)
    let m2 := if m = 2 ^ 53 then 2 ^ 52 else m
    let e2 : Int := if m = 2 ^ 53 then e + 1 else e
    if 1023 < e2 then GoFloat.posInf
    else if e2 ≤ 52 then GoFloat.finite ⟨(m2 : Int), 2 ^ (52 - e2).toNat⟩
    else GoFloat.finite ⟨(m2 : Int) * ((2 ^ (e2 - 52).toNat : Nat) : Int), 1⟩

def GoFloat.neg : GoFloat → GoFloat
  | GoFloat.finite f => GoFloat.finite ⟨-f.num, f.den⟩
  | GoFloat.posInf => GoFloat.negInf
  | GoFloat.negInf => GoFloat.posInf

/-- Round an exact rational to the nearest binary64 value (the sign of
a zero is not tracked: Frac has a single zero). -/
def roundF64 (f : Frac) : GoFloat :=
  if f.num < 0 then GoFloat.neg (roundF64Pos f.num.natAbs f.den)
  else if f.num = 0 then GoFloat.finite ⟨0, 1⟩
  else roundF64Pos f.num.natAbs f.den

def GoFloat.isInf : GoFloat → Bool
  | GoFloat.finite _ => false
  | GoFloat.posInf => true
  | GoFloat.negInf => true

/-- Model of json.Number.Float64 = strconv.ParseFloat(s, 64): the
correctly rounded float64 value with an error flag.  Syntax errors give
(0, true); overflow gives a signed infinity and (…, true); Go reports
ErrRange only for overflow, so underflow does not set the flag. -/
def parseFloat64 (s : String) : GoFloat × Bool :=
  match parseFloatDec s with
  | none => (GoFloat.finite ⟨0, 1⟩, true)
  | some v =>
      let r := roundF64 v
      (r, r.isInf)

/-! ### Go float arithmetic used by the report builder -/

/-- IEEE division of a float64 by a positive integer constant: the
program's constants (1e6, 15000, 43000) are exactly representable, so
the correctly rounded quotient is the rounding of the exact rational
quotient. -/
def GoFloat.divConst : GoFloat → Nat → GoFloat
  | GoFloat.finite f, c => roundF64 ⟨f.num, f.den * c⟩
  | GoFloat.posInf, _ => GoFloat.posInf
  | GoFloat.negInf, _ => GoFloat.negInf

/-- Truncation toward zero of the denoted rational (T-division of the
numerator by the denominator). -/
def Frac.trunc (f : Frac) : Int := Int.tdiv f.num f.den

def minInt64 : Int := -((2 ^ 63 : Nat) : Int)

/-- Go's int(f) conversion for f : float64 on a 64-bit target: truncate
toward zero; out-of-range values (including infinities) give minInt64,
as the amd64 hardware conversion does. -/
def GoFloat.toInt : GoFloat → Int
  | GoFloat.finite f =>
      let t := f.trunc
      if -((2 ^ 63 : Nat) : Int) ≤ t ∧ t < ((2 ^ 63 : Nat) : Int) then t else minInt64
  | GoFloat.posInf => minInt64
  | GoFloat.negInf => minInt64

/-! ### Number formatting -/

/-- Render a Nat with at least two digits (zero padded), for cell
formats and date rendering. -/
def pad2 (n : Nat) : String :=
  if n < 10 then "0" ++ toString n else toString n

/-- Hundredths of a nonnegative n/d, rounded half up:
⌊100·(n/d) + 1/2⌋ = ⌊(200·n + d) / (2·d)⌋. -/
def centsOf (n d : Nat) : Nat := (200 * n + d) / (2 * d)

/-- Display of a float cell with format "0.00": the value rounded to
two decimals, half away from zero. -/
def formatFixed2 : GoFloat → String
  | GoFloat.posInf => "+Inf"
  | GoFloat.negInf => "-Inf"
  | GoFloat.finite f =>
      let cents := centsOf f.num.natAbs f.den
      let digits := toString (cents / 100) ++ "." ++ pad2 (cents % 100)
      if f.num < 0 ∧ cents ≠ 0 then "-" ++ digits else digits

/-! ### readClusterNames (label map loader) -/

/-- Association-list model of the Go map: a read returns the zero value
"" when the key is absent, never an error. -/
def mapLookup (m : List (String × String)) (k : String) : String :=
  match m.find? (fun p => p.1 = k) with
  | some p => p.2
  | none => ""

/-- The loader loop of readClusterNames over already-split CSV records:
records with fewer than two fields are skipped, otherwise
clusterMap[record[1]] = record[0] (cons shadows older bindings, i.e.
last seen wins). -/
def readClusterRecords (records : List (List String)) : List (String × String) :=
  records.foldl
    (fun m r =>
      match r with
      | label :: addr :: _ => (addr, label) :: m
      | _ => m)
    []

/-- Split at the first occurrence of a character: the prefix before it
and the rest after it (none when the character does not occur). -/
def breakOn (ch : Char) : List Char → List Char × Option (List Char)
  | [] => ([], none)
  | c :: cs =>
      if c = ch then ([], some cs)
      else
        let p := breakOn ch cs
        (c :: p.1, p.2)

/-- Drop one trailing carriage return (csv.Reader.readLine normalizes a
final \r\n to \n; a \r anywhere else is data). -/
def stripCR : List Char → List Char
  | [] => []
  | ['\r'] => []
  | c :: cs => c :: stripCR cs

/-- csv.Reader.readLine: the next line's content (without the newline,
a final \r\n normalized), whether it ended in a newline, and the rest
of the input. -/
def readLine (cs : List Char) : List Char × Bool × List Char :=
  match breakOn '\n' cs with
  | (l, some rest) => (stripCR l, true, rest)
  | (l, none) => (l, false, [])

def hasQuote (l : List Char) : Bool := l.any (fun c => c = '"')

/-- Scan a quoted field after its opening quote: `""` is an escaped
quote; a closing quote must be followed by a comma (another field
follows), by the end of the line (the record ends) or nothing else
(ErrQuote); with no closing quote on the line the field spans into the
next raw line, keeping the newline, and an end of input inside the
quotes is ErrQuote.  Returns the field, the remaining line when the
record continues, and the remaining input. -/
def readQuoted : Nat → List Char → Bool → List Char → List Char →
    Except String (List Char × Option (List Char) × Bool × List Char)
  | 0, _, _, _, _ => Except.error "csv reader: out of fuel"
  | fuel + 1, line, hadNL, rest, acc =>
      match breakOn '"' line with
      | (pre, some after) =>
          match after with
          | '"' :: tl => readQuoted fuel tl hadNL rest (acc ++ pre ++ ['"'])
          | ',' :: tl => Except.ok (acc ++ pre, some tl, hadNL, rest)
          | [] => Except.ok (acc ++ pre, none, hadNL, rest)
          | _ => Except.error "extraneous or missing quote in quoted-field"
      | (pre, none) =>
          if hadNL then
            match readLine rest with
            | (l2, nl2, rest2) => readQuoted fuel l2 nl2 rest2 (acc ++ pre ++ ['\n'])
          else Except.error "extraneous or missing quote in quoted-field"

/-- Parse the fields of one record from its first line: a field opening
with a quote is quoted, otherwise it runs to the next comma or the end
of the line and may not contain a quote (ErrBareQuote). -/
def readFields : Nat → List Char → Bool → List Char → List String →
    Except String (List String × List Char)
  | 0, _, _, _, _ => Except.error "csv reader: out of fuel"
  | fuel + 1, line, hadNL, rest, acc =>
      match line with
      | '"' :: tl =>
          match readQuoted fuel tl hadNL rest [] with
          | Except.error e => Except.error e
          | Except.ok (field, some rem, hadNL2, rest2) =>
              readFields fuel rem hadNL2 rest2 (acc ++ [String.mk field])
          | Except.ok (field, none, _, rest2) =>
              Except.ok (acc ++ [String.mk field], rest2)
      | _ =>
          match breakOn ',' line with
          | (pre, some tl) =>
              if hasQuote pre then Except.error "bare quote in non-quoted-field"
              else readFields fuel tl hadNL rest (acc ++ [String.mk pre])
          | (pre, none) =>
              if hasQuote pre then Except.error "bare quote in non-quoted-field"
              else Except.ok (acc ++ [String.mk pre], rest)

/-- The record loop of csv.Reader under default settings, as main's
loop drives it: blank lines are skipped, and FieldsPerRecord = 0 makes
the first record's field count mandatory for every later record
(ErrFieldCount). -/
def readRecords : Nat → List Char → Option Nat → List (List String) →
    Except String (List (List String))
  | 0, _, _, _ => Except.error "csv reader: out of fuel"
  | fuel + 1, cs, expected, acc =>
      match cs with
      | [] => Except.ok acc
      | _ :: _ =>
          match readLine cs with
          | (l, hadNL, rest) =>
              if l = [] then readRecords fuel rest expected acc
              else
                match readFields fuel l hadNL rest [] with
                | Except.error e => Except.error e
                | Except.ok (rec, rest2) =>
                    match expected with
                    | none => readRecords fuel rest2 (some rec.length) (acc ++ [rec])
                    | some k =>
                        if rec.length = k then readRecords fuel rest2 (some k) (acc ++ [rec])
                        else Except.error "wrong number of fields"

/-- All records of a CSV document.  The fuel bounds the total number of
reader steps; every step but the last one of a record consumes at least
one input character, so 3·length + 8 always suffices. -/
def readCsv (content : String) : Except String (List (List String)) :=
  readRecords (3 * content.length + 8) content.toList none []

/-- readClusterNames: open the file (none = IO error), read records
through the csv reader (a reader error aborts the load), build the
map.  The file is fully consumed and released inside this stage. -/
def readClusterNames (file : Option String) : Except String (List (String × String)) :=
  match file with
  | none => .error "open cluster file"
  | some content =>
      match readCsv content with
      | Except.error e => Except.error e
      | Except.ok recs => Except.ok (readClusterRecords recs)

/-! ### Report builder (the loop over provers in main's Action) -/

/-- One data row of the sheet, with the cell payloads in column order:
rank (strconv.Itoa), label, address, total credits (float, "0.00"),
total share, daily credits (float, "0.00"), daily share, speed in
mega-units (float, "0.00"), speed share, and the two hardware counts
(SetInt). -/
structure Row where
  rank : String
  label : String
  address : String
  totalCredits : GoFloat
  totalPct : String
  dailyCredits : GoFloat
  dailyPct : String
  speedM : GoFloat
  speedPct : String
  gpu3080 : Int
  gpu4090 : Int
deriving DecidableEq

/-- Body of the row loop at index i (0-based): conversion errors of
Float64 are discarded with `_`, only the value is used. -/
def buildRow (clusterNames : List (String × String)) (i : Nat) (p : Prover) : Row :=
  let totalPuzzleCredits := (parseFloat64 p.TotalPuzzleCredits).1
  let dailyPuzzleCredits := (parseFloat64 p.DailyPuzzleCredits).1
  let networkSpeed := (parseFloat64 p.NetworkSpeed).1
  { rank := toString (i + 1)
    label := mapLookup clusterNames p.Address
    address := p.Address
    totalCredits := totalPuzzleCredits
    totalPct := p.TotalPuzzleCreditsPercentage
    dailyCredits := dailyPuzzleCredits
    dailyPct := p.DailyPuzzleCreditsPercentage
    speedM := networkSpeed.divConst 1000000
    speedPct := p.NetworkSpeedPercentage
    gpu3080 := (networkSpeed.divConst 15000).toInt
    gpu4090 := (networkSpeed.divConst 43000).toInt }

def buildRowsFrom (clusterNames : List (String × String)) : Nat → List Prover → List Row
  | _, [] => []
  | i, p :: ps => buildRow clusterNames i p :: buildRowsFrom clusterNames (i + 1) ps

/-- The report: one row per fetched prover, in fetched order, rank
starting at 1. -/
def buildReport (clusterNames : List (String × String)) (provers : List Prover) : List Row :=
  buildRowsFrom clusterNames 0 provers

/-! ### Expected response shape, per the specification

Modelled from the spec: "a JSON envelope with a single array field named
`data` containing prover records", each record carrying the data-model
fields (address string, decimal credit/speed fields — arriving as number
literals or as strings holding a valid number — and pre-formatted
percentage strings).  This is the spec's shape, used only to compare
against the decoder's actual behaviour; the decoder itself is modelled
from the code above. -/

def specDecimal : Json → Option String
  | Json.num lit => if isValidNumber lit then some lit else none
  | Json.str s => if isValidNumber s then some s else none
  | _ => none

def specProverRecord : Json → Option Prover
  | Json.obj [("Address", Json.str a), ("TotalPuzzleCredits", t),
      ("TotalPuzzleCreditsPercentage", Json.str tp), ("DailyPuzzleCredits", dc),
      ("DailyPuzzleCreditsPercentage", Json.str dp), ("NetworkSpeed", ns),
      ("NetworkSpeedPercentage", Json.str np)] => do
      let tv ← specDecimal t
      let dv ← specDecimal dc
      let nv ← specDecimal ns
      some ⟨a, tv, tp, dv, dp, nv, np⟩
  | _ => none

def specEnvelope : Json → Option (List Prover)
  | Json.obj [("data", Json.arr xs)] => xs.mapM specProverRecord
  | _ => none

/-! ### parseDateTime (Go time.ParseInLocation with layout "2006-01-02 15:04:05")

Faithful to Go's Parse: the year is exactly four digits; zero-padded
fields (month, day, minute, second) require exactly two digits
(getnum fixed); the 24-hour field `15` accepts one or two digits
(getnum non-fixed); hour/minute/second are range-checked inline and
month/day are range-checked after the layout is consumed; trailing
input is an error.  The process-local zone is modelled as a fixed
offset in seconds east of UTC. -/

structure DateTime where
  year : Int
  month : Nat
  day : Nat
  hour : Nat
  minute : Nat
  second : Nat
deriving DecidableEq

/-- Go time.isLeap. -/
def isLeap (y : Int) : Bool := y % 4 == 0 && (y % 100 != 0 || y % 400 == 0)

def monthDays : List Nat := [31, 28, 31, 30, 31, 30, 31, 31, 30, 31, 30, 31]

/-- Go time.daysIn. -/
def daysInMonth (y : Int) (m : Nat) : Nat :=
  if m = 2 ∧ isLeap y then 29 else monthDays.getD (m - 1) 0

/-- Go's format.getnum: one or two digits when not fixed, exactly two
when fixed. -/
def getnum (fixed : Bool) : List Char → Option (Nat × List Char)
  | [] => none
  | [c] => if c.isDigit ∧ fixed = false then some (digitVal c, []) else none
  | c1 :: c2 :: rest =>
      if c1.isDigit then
        if c2.isDigit then some (digitVal c1 * 10 + digitVal c2, rest)
        else if fixed then none
        else some (digitVal c1, c2 :: rest)
      else none

/-- The stdLongYear chunk: exactly four digits. -/
def read4digits : List Char → Option (Nat × List Char)
  | c1 :: c2 :: c3 :: c4 :: rest =>
      if c1.isDigit ∧ c2.isDigit ∧ c3.isDigit ∧ c4.isDigit then
        some (((digitVal c1 * 10 + digitVal c2) * 10 + digitVal c3) * 10 + digitVal c4, rest)
      else none
  | _ => none

def expectChar (c : Char) : List Char → Option (List Char)
  | [] => none
  | x :: rest => if x = c then some rest else none

/-- Drop a leading run of ASCII digits. -/
def dropDigits : List Char → List Char
  | [] => []
  | c :: cs => if c.isDigit then dropDigits cs else c :: cs

/-- Go Parse's special case right after the seconds chunk: a comma or
period followed by at least one digit is consumed as a fractional
second even though the layout has no fractional-second chunk (the
parsed nanoseconds are then discarded by t.Unix()). -/
def eatFrac (cs : List Char) : List Char :=
  match cs with
  | c0 :: c1 :: rest =>
      if (c0 = '.' ∨ c0 = ',') ∧ c1.isDigit then dropDigits rest else cs
  | _ => cs

/-- The fractional-second suffixes Parse accepts after the seconds
field: empty, or a period/comma followed by one or more digits. -/
def fracOkB (frac : List Char) : Bool :=
  match frac with
  | [] => true
  | p :: ds => (p == '.' || p == ',') && !ds.isEmpty && ds.all Char.isDigit

/-- Parse a value against the layout "2006-01-02 15:04:05" and validate
field ranges as Go's Parse does; after the seconds field an optional
fractional second is consumed (and discarded). -/
def parseLayout (cs : List Char) : Option DateTime :=
  match read4digits cs with
  | none => none
  | some (y, cs) =>
  match expectChar '-' cs with
  | none => none
  | some cs =>
  match getnum true cs with
  | none => none
  | some (mo, cs) =>
  match expectChar '-' cs with
  | none => none
  | some cs =>
  match getnum true cs with
  | none => none
  | some (d, cs) =>
  match expectChar ' ' cs with
  | none => none
  | some cs =>
  match getnum false cs with
  | none => none
  | some (h, cs) =>
  match expectChar ':' cs with
  | none => none
  | some cs =>
  match getnum true cs with
  | none => none
  | some (mi, cs) =>
  match expectChar ':' cs with
  | none => none
  | some cs =>
  match getnum true cs with
  | none => none
  | some (sec, cs) =>
    if eatFrac cs = [] ∧ h < 24 ∧ mi < 60 ∧ sec < 60 ∧ 1 ≤ mo ∧ mo ≤ 12
        ∧ 1 ≤ d ∧ d ≤ daysInMonth (y : Int) mo then
      some ⟨(y : Int), mo, d, h, mi, sec⟩
    else none

/-! ### Civil-date / epoch conversions (Go time.Date and time.Unix)

`daysFromCivil` is the standard proleptic-Gregorian day count (days
since 1970-01-01) using March-based years; `civilFromDays` is the
inverse, recovering century / 4-year cycle / year step by step as Go's
absDate does.  Divisions written with `/` and `%` on Int are
floor-style (the divisors are positive). -/

def daysFromCivil (y : Int) (m d : Nat) : Int :=
  let yShift : Int := if m ≤ 2 then y - 1 else y
  let era : Int := yShift / 400
  let yoe : Nat := (yShift % 400).toNat
  let mp : Nat := if m ≤ 2 then m + 9 else m - 3
  let doy : Nat := (153 * mp + 2) / 5 + d - 1
  let doe : Nat := 365 * yoe + yoe / 4 - yoe / 100 + doy
  era * 146097 + (doe : Int) - 719468

def civilFromDays (z : Int) : Int × Nat × Nat :=
  let za : Int := z + 719468
  let era : Int := za / 146097
  let doe : Nat := (za % 146097).toNat
  let n1 : Nat := doe / 36524
  let c : Nat := n1 - n1 / 4
  let d1 : Nat := doe - 36524 * c
  let q : Nat := d1 / 1461
  let d2 : Nat := d1 - 1461 * q
  let n3 : Nat := d2 / 365
  let r : Nat := n3 - n3 / 4
  let doy : Nat := d2 - 365 * r
  let yoe : Nat := 100 * c + 4 * q + r
  let mp : Nat := (5 * doy + 2) / 153
  let dd : Nat := doy - (153 * mp + 2) / 5 + 1
  let m : Nat := if mp < 10 then mp + 3 else mp - 9
  ((if m ≤ 2 then era * 400 + yoe + 1 else era * 400 + yoe), m, dd)

/-- time.Date(y,m,d,h,mi,s,0,loc).Unix() for a fixed-offset location. -/
def dtToUnix (off : Int) (dt : DateTime) : Int :=
  daysFromCivil dt.year dt.month dt.day * 86400
    + (dt.hour * 3600 + dt.minute * 60 + dt.second : Nat) - off

/-- Clock fields of time.Unix(t,0).In(loc) for a fixed-offset location. -/
def unixToDateTime (off : Int) (t : Int) : DateTime :=
  let wall := t + off
  let days := wall / 86400
  let sod : Nat := (wall % 86400).toNat
  let civ := civilFromDays days
  ⟨civ.1, civ.2.1, civ.2.2, sod / 3600, sod % 3600 / 60, sod % 60⟩

/-- parseDateTime of main.go: parse in the local zone and return epoch
seconds. -/
def parseDateTime (off : Int) (s : String) : Except String Int :=
  match parseLayout s.toList with
  | none => .error "cannot parse as layout 2006-01-02 15:04:05"
  | some dt => .ok (dtToUnix off dt)

/-! ### Renderers of the layout, for stating the format language -/

def pad2Chars (n : Nat) : List Char := [digitChar (n / 10), digitChar (n % 10)]

def pad4Chars (n : Nat) : List Char :=
  [digitChar (n / 1000), digitChar (n / 100 % 10), digitChar (n / 10 % 10), digitChar (n % 10)]

/-- The strict `YYYY-MM-DD HH:MM:SS` rendering of a date-time. -/
def renderChars (dt : DateTime) : List Char :=
  pad4Chars dt.year.toNat ++ '-' :: pad2Chars dt.month ++ '-' :: pad2Chars dt.day ++
    ' ' :: pad2Chars dt.hour ++ ':' :: pad2Chars dt.minute ++ ':' :: pad2Chars dt.second

/-- The same rendering with a single-digit hour (only meaningful when
the hour is below 10). -/
def renderLaxChars (dt : DateTime) : List Char :=
  pad4Chars dt.year.toNat ++ '-' :: pad2Chars dt.month ++ '-' :: pad2Chars dt.day ++
    ' ' :: digitChar dt.hour :: ':' :: pad2Chars dt.minute ++ ':' :: pad2Chars dt.second

def renderStrict (dt : DateTime) : String := String.mk (renderChars dt)

def renderLax (dt : DateTime) : String := String.mk (renderLaxChars dt)

/-- In-range field values: what Go's Parse accepts for this layout. -/
def validDT (dt : DateTime) : Prop :=
  0 ≤ dt.year ∧ dt.year ≤ 9999 ∧ 1 ≤ dt.month ∧ dt.month ≤ 12 ∧
    1 ≤ dt.day ∧ dt.day ≤ daysInMonth dt.year dt.month ∧
    dt.hour ≤ 23 ∧ dt.minute ≤ 59 ∧ dt.second ≤ 59

instance (dt : DateTime) : Decidable (validDT dt) := by
  unfold validDT; infer_instance

/-- Modelled from the spec: the literal format `YYYY-MM-DD HH:MM:SS`
with two-digit hour and in-range calendar fields.  This is the spec's
format language, used to compare with what parseDateTime actually
accepts; it differs from `parseLayout` only in requiring the hour to be
two digits (getnum fixed). -/
def parseLayoutStrict (cs : List Char) : Option DateTime :=
  match read4digits cs with
  | none => none
  | some (y, cs) =>
  match expectChar '-' cs with
  | none => none
  | some cs =>
  match getnum true cs with
  | none => none
  | some (mo, cs) =>
  match expectChar '-' cs with
  | none => none
  | some cs =>
  match getnum true cs with
  | none => none
  | some (d, cs) =>
  match expectChar ' ' cs with
  | none => none
  | some cs =>
  match getnum true cs with
  | none => none
  | some (h, cs) =>
  match expectChar ':' cs with
  | none => none
  | some cs =>
  match getnum true cs with
  | none => none
  | some (mi, cs) =>
  match expectChar ':' cs with
  | none => none
  | some cs =>
  match getnum true cs with
  | none => none
  | some (sec, cs) =>
    if cs = [] ∧ h < 24 ∧ mi < 60 ∧ sec < 60 ∧ 1 ≤ mo ∧ mo ≤ 12
        ∧ 1 ≤ d ∧ d ≤ daysInMonth (y : Int) mo then
      some ⟨(y : Int), mo, d, h, mi, sec⟩
    else none

/-- Membership in the spec's strict format language. -/
def strictFormat (s : String) : Bool := (parseLayoutStrict s.toList).isSome

/-- Lengths of the March-based months (March first, February last), the
order in which `daysFromCivil`'s day-of-year formula counts them;
February is listed with its leap-year maximum. -/
def shiftedLen : Nat → Nat
  | 0 => 31
  | 1 => 30
  | 2 => 31
  | 3 => 30
  | 4 => 31
  | 5 => 31
  | 6 => 30
  | 7 => 31
  | 8 => 30
  | 9 => 31
  | 10 => 31
  | 11 => 29
  | _ => 0

/-! ### The cli Action of main (the pipeline) -/

inductive Stage where
  | parseStart : Stage
  | parseEnd : Stage
  | fetch : Stage
  | loadLabels : Stage
  | buildRows : Stage
  | save : Stage
deriving DecidableEq

/-- One run's environment: the flag values, the local zone offset, the
HTTP response (none = transport failure) and the label file content
(none = open/read failure). -/
structure Env where
  startStr : String
  endStr : String
  tzOffset : Int
  response : Option HttpResponse
  labelFile : Option String

/-- The cli Action: parse both date-times, fetch, load labels, build
the rows, save.  Returns the stages that began, in execution order, and
the outcome (the saved rows, or the first error).  The save stage is
the single synchronous write of the output file. -/
def runAction (env : Env) : List Stage × Except String (List Row) :=
  match parseDateTime env.tzOffset env.startStr with
  | .error e => ([Stage.parseStart], .error ("error parsing start date and time: " ++ e))
  | .ok startTime =>
      match parseDateTime env.tzOffset env.endStr with
      | .error e =>
          ([Stage.parseStart, Stage.parseEnd], .error ("error parsing end date and time: " ++ e))
      | .ok endTime =>
          match fetchProverRankList startTime endTime env.response with
          | .error e =>
              ([Stage.parseStart, Stage.parseEnd, Stage.fetch],
                .error ("error fetching prover rank list: " ++ e))
          | .ok provers =>
              match readClusterNames env.labelFile with
              | .error e =>
                  ([Stage.parseStart, Stage.parseEnd, Stage.fetch, Stage.loadLabels],
                    .error ("error reading cluster names: " ++ e))
              | .ok clusterNames =>
                  ([Stage.parseStart, Stage.parseEnd, Stage.fetch, Stage.loadLabels,
                      Stage.buildRows, Stage.save],
                    .ok (buildReport clusterNames provers))

/-- The stage order of a fully successful run. -/
def fullTrace : List Stage :=
  [Stage.parseStart, Stage.parseEnd, Stage.fetch, Stage.loadLabels, Stage.buildRows, Stage.save]

/-! ### Concrete inputs used by the claim theorems -/

/-- The fetch body of the spec's concrete example, with all seven
record fields present and the numeric fields given as JSON strings. -/
def c2Body : String :=
  "\x7b\"data\":[\x7b\"Address\":\"addr1\",\"TotalPuzzleCredits\":\"100.5\"," ++
    "\"TotalPuzzleCreditsPercentage\":\"10.5%\",\"DailyPuzzleCredits\":\"20.5\"," ++
    "\"DailyPuzzleCreditsPercentage\":\"2.5%\",\"NetworkSpeed\":\"30000\"," ++
    "\"NetworkSpeedPercentage\":\"3.1%\"\x7d]\x7d"

/-- The record that decoding c2Body must produce. -/
def c2Prover : Prover :=
  ⟨"addr1", "100.5", "10.5%", "20.5", "2.5%", "30000", "3.1%"⟩

/-- The JSON value of c2Body. -/
def c2Json : Json :=
  Json.obj [("data", Json.arr [Json.obj
    [("Address", Json.str "addr1"),
     ("TotalPuzzleCredits", Json.str "100.5"),
     ("TotalPuzzleCreditsPercentage", Json.str "10.5%"),
     ("DailyPuzzleCredits", Json.str "20.5"),
     ("DailyPuzzleCreditsPercentage", Json.str "2.5%"),
     ("NetworkSpeed", Json.str "30000"),
     ("NetworkSpeedPercentage", Json.str "3.1%")]])]

/-- An environment in which every stage succeeds. -/
def env0 : Env :=
  ⟨"2024-01-02 03:04:05", "2024-01-03 03:04:05", 0,
    some ⟨200, "\x7b\"data\":[]\x7d"⟩, some "Alice,addr1\n"⟩

/-- An environment whose HTTP response has status 500. -/
def env1 : Env :=
  ⟨"2024-01-02 03:04:05", "2024-01-03 03:04:05", 0, some ⟨500, "\x7b\x7d"⟩, some "Alice,addr1\n"⟩

/-- A record whose TotalPuzzleCredits is out of float64 range. -/
def p10 : Prover := ⟨"a", "1e999", "", "", "", "", ""⟩

/-- A response body carrying p10. -/
def body10 : String :=
  "\x7b\"data\":[\x7b\"Address\":\"a\",\"TotalPuzzleCredits\":\"1e999\"\x7d]\x7d"

/-- An environment whose fetched record overflows Float64. -/
def env2 : Env :=
  ⟨"2024-01-02 03:04:05", "2024-01-03 03:04:05", 0, some ⟨200, body10⟩, some ""⟩


set_option maxRecDepth 8000


theorem foldl_filter_keep (recs : List (List String)) (acc : List (String × String)) :
    (recs.filter (fun r => 2 ≤ r.length)).foldl
      (fun m r => match r with
        | label :: addr :: _ => (addr, label) :: m
        | _ => m) acc =
    recs.foldl
      (fun m r => match r with
        | label :: addr :: _ => (addr, label) :: m
        | _ => m) acc := by
  induction recs generalizing acc with
  | nil => rfl
  | cons r rest ih =>
      match r with
      | [] => simpa using ih acc
      | [a] => simpa using ih acc
      | a :: b :: tl => simp [List.filter, ih]

theorem readClusterRecords_filter (recs : List (List String)) :
    readClusterRecords (recs.filter (fun r => 2 ≤ r.length)) = readClusterRecords recs :=
  foldl_filter_keep recs []

theorem readClusterRecords_append (recs : List (List String)) (label addr : String)
    (rest : List String) :
    readClusterRecords (recs ++ [label :: addr :: rest]) =
      (addr, label) :: readClusterRecords recs := by
  unfold readClusterRecords
  rw [List.foldl_append]
  rfl

theorem mapLookup_head (m : List (String × String)) (k v : String) :
    mapLookup ((k, v) :: m) k = v := by
  simp [mapLookup, List.find?]

theorem mapLookup_cons_ne (m : List (String × String)) (p : String × String) (k : String)
    (h : p.1 ≠ k) : mapLookup (p :: m) k = mapLookup m k := by
  have hne : (decide (p.1 = k)) = false := by simpa using h
  simp [mapLookup, List.find?, hne]

theorem mapLookup_absent (m : List (String × String)) (k : String)
    (h : k ∉ m.map Prod.fst) : mapLookup m k = "" := by
  induction m with
  | nil => rfl
  | cons p rest ih =>
      simp only [List.map_cons, List.mem_cons] at h
      push_neg at h
      rw [mapLookup_cons_ne rest p k (fun hh => h.1 hh.symm)]
      exact ih h.2



/-! Builder lemmas (C5) -/

theorem buildRowsFrom_length (m : List (String × String)) (ps : List Prover) (i : Nat) :
    (buildRowsFrom m i ps).length = ps.length := by
  induction ps generalizing i with
  | nil => rfl
  | cons p rest ih => simp [buildRowsFrom, ih]

theorem buildRowsFrom_map_address (m : List (String × String)) (ps : List Prover) (i : Nat) :
    (buildRowsFrom m i ps).map Row.address = ps.map Prover.Address := by
  induction ps generalizing i with
  | nil => rfl
  | cons p rest ih => simp [buildRowsFrom, buildRow, ih]

theorem buildRowsFrom_map_rank (m : List (String × String)) (ps : List Prover) (i : Nat) :
    (buildRowsFrom m i ps).map Row.rank =
      (List.range ps.length).map (fun k => toString (i + k + 1)) := by
  induction ps generalizing i with
  | nil => rfl
  | cons p rest ih =>
      have harith : ∀ k : Nat, i + (k + 1) + 1 = i + 1 + k + 1 := by omega
      simp [buildRowsFrom, buildRow, ih, List.range_succ_eq_map, List.map_map,
        Function.comp, harith]

theorem tdiv_mul_cancel (s : Int) (d c : Nat) (hd : 0 < d) (hc : 0 < c) :
    Int.tdiv (s * d) ((d : Int) * c) = Int.tdiv s c := by
  rcases le_or_lt 0 s with hs | hs
  · rw [Int.tdiv_eq_ediv (by positivity) (by positivity),
      Int.tdiv_eq_ediv hs (by positivity)]
    rw [show s * (d : Int) = (d : Int) * s by ring]
    exact Int.mul_ediv_mul_of_pos s (c : Int) (by exact_mod_cast hd)
  · have h2 : Int.tdiv (s * d) ((d : Int) * c) = - Int.tdiv ((-s) * d) ((d : Int) * c) := by
      conv_lhs => rw [show s * (d : Int) = -((-s) * d) by ring]
      rw [Int.neg_tdiv]
    have h3 : Int.tdiv s c = - Int.tdiv (-s) c := by
      conv_lhs => rw [show s = -(-s) by ring]
      rw [Int.neg_tdiv]
    rw [h2, h3]
    congr 1
    rw [Int.tdiv_eq_ediv (by nlinarith) (by positivity),
      Int.tdiv_eq_ediv (by omega) (by positivity)]
    rw [show (-s) * (d : Int) = (d : Int) * (-s) by ring]
    exact Int.mul_ediv_mul_of_pos (-s) (c : Int) (by exact_mod_cast hd)

theorem tdiv_natAbs_le (s : Int) (c : Nat) (hc : 0 < c) :
    (Int.tdiv s c).natAbs ≤ s.natAbs := by
  rcases le_or_lt 0 s with hs | hs
  · rw [Int.tdiv_eq_ediv hs (by positivity)]
    have h0 : 0 ≤ s / (c : Int) := Int.ediv_nonneg hs (by positivity)
    have h1 : s / (c : Int) ≤ s := Int.ediv_le_self _ hs
    omega
  · have h3 : Int.tdiv s c = - Int.tdiv (-s) c := by
      conv_lhs => rw [show s = -(-s) by ring]
      rw [Int.neg_tdiv]
    rw [h3]
    have hns : 0 ≤ -s := by omega
    rw [Int.tdiv_eq_ediv hns (by positivity)]
    have h0 : 0 ≤ (-s) / (c : Int) := Int.ediv_nonneg hns (by positivity)
    have h1 : (-s) / (c : Int) ≤ -s := Int.ediv_le_self _ hns
    omega

theorem tdiv_neg_of_le (s : Int) (c : Nat) (hc : 0 < c) (h : s ≤ -(c : Int)) :
    Int.tdiv s c < 0 := by
  have h3 : Int.tdiv s c = - Int.tdiv (-s) c := by
    conv_lhs => rw [show s = -(-s) by ring]
    rw [Int.neg_tdiv]
  rw [h3]
  have hns : 0 ≤ -s := by omega
  rw [Int.tdiv_eq_ediv hns (by positivity)]
  have h1 : 1 ≤ (-s) / (c : Int) := by
    rw [Int.le_ediv_iff_mul_le (by exact_mod_cast hc)]
    omega
  omega

theorem tdiv_eq_zero_of_small (s : Int) (c : Nat) (hc : 0 < c)
    (h1 : -(c : Int) < s) (h2 : s < (c : Int)) : Int.tdiv s c = 0 := by
  rcases le_or_lt 0 s with hs | hs
  · rw [Int.tdiv_eq_ediv hs (by positivity)]
    exact Int.ediv_eq_zero_of_lt hs h2
  · have h3 : Int.tdiv s c = - Int.tdiv (-s) c := by
      conv_lhs => rw [show s = -(-s) by ring]
      rw [Int.neg_tdiv]
    rw [h3]
    have hns : 0 ≤ -s := by omega
    rw [Int.tdiv_eq_ediv hns (by positivity)]
    rw [Int.ediv_eq_zero_of_lt hns (by omega)]
    rfl

theorem runAction_cases (env : Env) :
    ((runAction env).1 = [Stage.parseStart] ∧ ∃ e, (runAction env).2 = Except.error e) ∨
    ((runAction env).1 = [Stage.parseStart, Stage.parseEnd] ∧
      ∃ e, (runAction env).2 = Except.error e) ∨
    ((runAction env).1 = [Stage.parseStart, Stage.parseEnd, Stage.fetch] ∧
      ∃ e, (runAction env).2 = Except.error e) ∨
    ((runAction env).1 = [Stage.parseStart, Stage.parseEnd, Stage.fetch, Stage.loadLabels] ∧
      ∃ e, (runAction env).2 = Except.error e) ∨
    ((runAction env).1 = fullTrace ∧ ∃ rows, (runAction env).2 = Except.ok rows) := by
  cases hps : parseDateTime env.tzOffset env.startStr with
  | error e =>
      have h : runAction env =
          ([Stage.parseStart], Except.error ("error parsing start date and time: " ++ e)) := by
        simp [runAction, hps]
      exact Or.inl ⟨by rw [h], _, by rw [h]⟩
  | ok st =>
      cases hpe : parseDateTime env.tzOffset env.endStr with
      | error e =>
          have h : runAction env = ([Stage.parseStart, Stage.parseEnd],
              Except.error ("error parsing end date and time: " ++ e)) := by
            simp [runAction, hps, hpe]
          exact Or.inr (Or.inl ⟨by rw [h], _, by rw [h]⟩)
      | ok et =>
          cases hf : fetchProverRankList st et env.response with
          | error e =>
              have h : runAction env = ([Stage.parseStart, Stage.parseEnd, Stage.fetch],
                  Except.error ("error fetching prover rank list: " ++ e)) := by
                simp [runAction, hps, hpe, hf]
              exact Or.inr (Or.inr (Or.inl ⟨by rw [h], _, by rw [h]⟩))
          | ok provers =>
              cases hl : readClusterNames env.labelFile with
              | error e =>
                  have h : runAction env =
                      ([Stage.parseStart, Stage.parseEnd, Stage.fetch, Stage.loadLabels],
                        Except.error ("error reading cluster names: " ++ e)) := by
                    simp [runAction, hps, hpe, hf, hl]
                  exact Or.inr (Or.inr (Or.inr (Or.inl ⟨by rw [h], _, by rw [h]⟩)))
              | ok names =>
                  have h : runAction env =
                      (fullTrace, Except.ok (buildReport names provers)) := by
                    simp [runAction, hps, hpe, hf, hl, fullTrace]
                  exact Or.inr (Or.inr (Or.inr (Or.inr ⟨by rw [h], _, by rw [h]⟩)))

theorem runAction_success (env : Env) (st et : Int) (provers : List Prover)
    (names : List (String × String))
    (h1 : parseDateTime env.tzOffset env.startStr = Except.ok st)
    (h2 : parseDateTime env.tzOffset env.endStr = Except.ok et)
    (h3 : fetchProverRankList st et env.response = Except.ok provers)
    (h4 : readClusterNames env.labelFile = Except.ok names) :
    runAction env = (fullTrace, Except.ok (buildReport names provers)) := by
  simp [runAction, h1, h2, h3, h4, fullTrace]

theorem decodeNum_of_spec (v : Json) (s : String) (h : specDecimal v = some s) (cur : String) :
    decodeNumField cur v = Except.ok s := by
  cases v with
  | num lit =>
      simp only [specDecimal] at h
      split at h
      · cases h
        simp only [decodeNumField]
        rw [if_pos (by assumption)]
      · cases h
  | str st =>
      simp only [specDecimal] at h
      split at h
      · cases h
        simp only [decodeNumField]
        rw [if_pos (by assumption)]
      · cases h
  | null => simp [specDecimal] at h
  | bool b => simp [specDecimal] at h
  | arr xs => simp [specDecimal] at h
  | obj fs => simp [specDecimal] at h

theorem decodeProver_of_spec (j : Json) (p : Prover) (h : specProverRecord j = some p) :
    decodeProverInto {} j = Except.ok p := by
  unfold specProverRecord at h
  split at h
  next a t tp dc dp ns np =>
    rcases Option.bind_eq_some.mp h with ⟨tv, ht, h⟩
    rcases Option.bind_eq_some.mp h with ⟨dv, hd, h⟩
    rcases Option.bind_eq_some.mp h with ⟨nv, hn, h⟩
    cases h
    have e1 := decodeNum_of_spec t tv ht ""
    have e2 := decodeNum_of_spec dc dv hd ""
    have e3 := decodeNum_of_spec ns nv hn ""
    simp [decodeProverInto, applyProverFields, applyProverField, decodeStrField,
      e1, e2, e3, Except.map,
      show keyMatches "Address" "Address" = true from rfl,
      show keyMatches "Address" "TotalPuzzleCredits" = false from rfl,
      show keyMatches "Address" "TotalPuzzleCreditsPercentage" = false from rfl,
      show keyMatches "Address" "DailyPuzzleCredits" = false from rfl,
      show keyMatches "Address" "DailyPuzzleCreditsPercentage" = false from rfl,
      show keyMatches "Address" "NetworkSpeed" = false from rfl,
      show keyMatches "Address" "NetworkSpeedPercentage" = false from rfl,
      show keyMatches "TotalPuzzleCredits" "Address" = false from rfl,
      show keyMatches "TotalPuzzleCredits" "TotalPuzzleCredits" = true from rfl,
      show keyMatches "TotalPuzzleCredits" "TotalPuzzleCreditsPercentage" = false from rfl,
      show keyMatches "TotalPuzzleCredits" "DailyPuzzleCredits" = false from rfl,
      show keyMatches "TotalPuzzleCredits" "DailyPuzzleCreditsPercentage" = false from rfl,
      show keyMatches "TotalPuzzleCredits" "NetworkSpeed" = false from rfl,
      show keyMatches "TotalPuzzleCredits" "NetworkSpeedPercentage" = false from rfl,
      show keyMatches "TotalPuzzleCreditsPercentage" "Address" = false from rfl,
      show keyMatches "TotalPuzzleCreditsPercentage" "TotalPuzzleCredits" = false from rfl,
      show keyMatches "TotalPuzzleCreditsPercentage" "TotalPuzzleCreditsPercentage" = true from rfl,
      show keyMatches "TotalPuzzleCreditsPercentage" "DailyPuzzleCredits" = false from rfl,
      show keyMatches "TotalPuzzleCreditsPercentage" "DailyPuzzleCreditsPercentage" = false from rfl,
      show keyMatches "TotalPuzzleCreditsPercentage" "NetworkSpeed" = false from rfl,
      show keyMatches "TotalPuzzleCreditsPercentage" "NetworkSpeedPercentage" = false from rfl,
      show keyMatches "DailyPuzzleCredits" "Address" = false from rfl,
      show keyMatches "DailyPuzzleCredits" "TotalPuzzleCredits" = false from rfl,
      show keyMatches "DailyPuzzleCredits" "TotalPuzzleCreditsPercentage" = false from rfl,
      show keyMatches "DailyPuzzleCredits" "DailyPuzzleCredits" = true from rfl,
      show keyMatches "DailyPuzzleCredits" "DailyPuzzleCreditsPercentage" = false from rfl,
      show keyMatches "DailyPuzzleCredits" "NetworkSpeed" = false from rfl,
      show keyMatches "DailyPuzzleCredits" "NetworkSpeedPercentage" = false from rfl,
      show keyMatches "DailyPuzzleCreditsPercentage" "Address" = false from rfl,
      show keyMatches "DailyPuzzleCreditsPercentage" "TotalPuzzleCredits" = false from rfl,
      show keyMatches "DailyPuzzleCreditsPercentage" "TotalPuzzleCreditsPercentage" = false from rfl,
      show keyMatches "DailyPuzzleCreditsPercentage" "DailyPuzzleCredits" = false from rfl,
      show keyMatches "DailyPuzzleCreditsPercentage" "DailyPuzzleCreditsPercentage" = true from rfl,
      show keyMatches "DailyPuzzleCreditsPercentage" "NetworkSpeed" = false from rfl,
      show keyMatches "DailyPuzzleCreditsPercentage" "NetworkSpeedPercentage" = false from rfl,
      show keyMatches "NetworkSpeed" "Address" = false from rfl,
      show keyMatches "NetworkSpeed" "TotalPuzzleCredits" = false from rfl,
      show keyMatches "NetworkSpeed" "TotalPuzzleCreditsPercentage" = false from rfl,
      show keyMatches "NetworkSpeed" "DailyPuzzleCredits" = false from rfl,
      show keyMatches "NetworkSpeed" "DailyPuzzleCreditsPercentage" = false from rfl,
      show keyMatches "NetworkSpeed" "NetworkSpeed" = true from rfl,
      show keyMatches "NetworkSpeed" "NetworkSpeedPercentage" = false from rfl,
      show keyMatches "NetworkSpeedPercentage" "Address" = false from rfl,
      show keyMatches "NetworkSpeedPercentage" "TotalPuzzleCredits" = false from rfl,
      show keyMatches "NetworkSpeedPercentage" "TotalPuzzleCreditsPercentage" = false from rfl,
      show keyMatches "NetworkSpeedPercentage" "DailyPuzzleCredits" = false from rfl,
      show keyMatches "NetworkSpeedPercentage" "DailyPuzzleCreditsPercentage" = false from rfl,
      show keyMatches "NetworkSpeedPercentage" "NetworkSpeed" = false from rfl,
      show keyMatches "NetworkSpeedPercentage" "NetworkSpeedPercentage" = true from rfl]
  next => cases h

theorem decodeElems_of_spec (xs : List Json) (ps : List Prover)
    (h : xs.mapM specProverRecord = some ps) : decodeProverElems [] xs = Except.ok ps := by
  induction xs generalizing ps with
  | nil =>
      simp only [List.mapM_nil, pure, Option.some.injEq] at h
      subst h
      rfl
  | cons x rest ih =>
      rw [List.mapM_cons] at h
      rcases Option.bind_eq_some.mp h with ⟨p, hp, h⟩
      rcases Option.bind_eq_some.mp h with ⟨ps', hps, h⟩
      cases h
      simp [decodeProverElems, decodeProver_of_spec x p hp, ih ps' hps]

theorem decodeEnvelope_of_spec (j : Json) (ps : List Prover) (h : specEnvelope j = some ps) :
    decodeEnvelope j = Except.ok ps := by
  unfold specEnvelope at h
  split at h
  next xs =>
    have hx := decodeElems_of_spec xs ps h
    simp [decodeEnvelope, applyEnvelopeFields, decodeProverList, hx,
      show keyMatches "data" "data" = true from rfl]
  next => cases h

theorem eraSteps_ok (c q r doy doe : Nat)
    (hc : c ≤ 3) (hq : q ≤ 24) (hr : r ≤ 3) (hdoy : doy ≤ 365)
    (hleap : doy = 365 → r = 3 ∧ (q = 24 → c = 3))
    (hdoe : doe = 36524 * c + 1461 * q + 365 * r + doy) :
    doe / 36524 - (doe / 36524) / 4 = c ∧
    (doe - 36524 * c) / 1461 = q ∧
    (doe - 36524 * c - 1461 * q) / 365 - ((doe - 36524 * c - 1461 * q) / 365) / 4 = r ∧
    doe - 36524 * c - 1461 * q - 365 * r = doy := by
  have hcc : doe / 36524 - (doe / 36524) / 4 = c := by
    have hR : 1461 * q + 365 * r + doy ≤ 36524 := by omega
    have hcase : (1461 * q + 365 * r + doy ≤ 36523 ∧ doe / 36524 = c) ∨
        (1461 * q + 365 * r + doy = 36524 ∧ c = 3 ∧ doe / 36524 = 4) := by omega
    omega
  have hqq : (doe - 36524 * c) / 1461 = q := by
    have : 365 * r + doy ≤ 1460 := by omega
    omega
  have hrr : (doe - 36524 * c - 1461 * q) / 365 -
      ((doe - 36524 * c - 1461 * q) / 365) / 4 = r := by
    have hcase : (doy ≤ 364 ∧ (doe - 36524 * c - 1461 * q) / 365 = r) ∨
        (doy = 365 ∧ r = 3 ∧ (doe - 36524 * c - 1461 * q) / 365 = 4) := by omega
    omega
  exact ⟨hcc, hqq, hrr, by omega⟩

theorem yoe_decomp (yoe : Nat) (h : yoe < 400) :
    365 * yoe + yoe / 4 - yoe / 100 =
      36524 * (yoe / 100) + 1461 * (yoe % 100 / 4) + 365 * (yoe % 4) ∧
    yoe / 100 ≤ 3 ∧ yoe % 100 / 4 ≤ 24 ∧ yoe % 4 ≤ 3 ∧
    100 * (yoe / 100) + 4 * (yoe % 100 / 4) + yoe % 4 = yoe := by omega

theorem monthShifted_ok (mp d : Nat) (hmp : mp < 12) (hd1 : 1 ≤ d) (hd : d ≤ shiftedLen mp) :
    (5 * ((153 * mp + 2) / 5 + d - 1) + 2) / 153 = mp ∧
      (153 * mp + 2) / 5 + d - 1 - (153 * mp + 2) / 5 + 1 = d ∧
      (153 * mp + 2) / 5 + d - 1 ≤ 365 ∧
      ((153 * mp + 2) / 5 + d - 1 = 365 → mp = 11 ∧ d = 29) ∧
      (mp = 11 ∧ d = 29 → (153 * mp + 2) / 5 + d - 1 = 365) := by
  interval_cases mp <;> simp only [shiftedLen] at hd <;> omega

theorem isLeap_iff (y : Int) : isLeap y = true ↔ (y % 4 = 0 ∧ (y % 100 ≠ 0 ∨ y % 400 = 0)) := by
  simp [isLeap, Bool.and_eq_true, Bool.or_eq_true, beq_iff_eq, bne_iff_ne]

theorem daysFromCivil_eq (y : Int) (m d : Nat) (yS era : Int) (yoe mp doy doe : Nat)
    (h1 : yS = if m ≤ 2 then y - 1 else y) (h2 : era = yS / 400)
    (h3 : yoe = (yS % 400).toNat) (h4 : mp = if m ≤ 2 then m + 9 else m - 3)
    (h5 : doy = (153 * mp + 2) / 5 + d - 1)
    (h6 : doe = 365 * yoe + yoe / 4 - yoe / 100 + doy) :
    daysFromCivil y m d = era * 146097 + (doe : Int) - 719468 := by
  subst h6 h5 h4 h3 h2 h1
  rfl

theorem civilFromDays_eq (z za era : Int) (doe n1 c d1 q d2 n3 r doy yoe mp dd m : Nat)
    (yy : Int)
    (h1 : za = z + 719468)
    (h2 : era = za / 146097)
    (h3 : doe = (za % 146097).toNat)
    (h4 : n1 = doe / 36524)
    (h5 : c = n1 - n1 / 4)
    (h6 : d1 = doe - 36524 * c)
    (h7 : q = d1 / 1461)
    (h8 : d2 = d1 - 1461 * q)
    (h9 : n3 = d2 / 365)
    (h10 : r = n3 - n3 / 4)
    (h11 : doy = d2 - 365 * r)
    (h12 : yoe = 100 * c + 4 * q + r)
    (h13 : mp = (5 * doy + 2) / 153)
    (h14 : dd = doy - (153 * mp + 2) / 5 + 1)
    (h15 : m = if mp < 10 then mp + 3 else mp - 9)
    (h16 : yy = if m ≤ 2 then era * 400 + yoe + 1 else era * 400 + yoe) :
    civilFromDays z = (yy, m, dd) := by
  subst h16 h15 h14 h13 h12 h11 h10 h9 h8 h7 h6 h5 h4 h3 h2 h1
  rfl

theorem civil_core (y : Int) (m d mp : Nat)
    (hmp : mp = if m ≤ 2 then m + 9 else m - 3)
    (hm1 : 1 ≤ m) (hm2 : m ≤ 12) (hd1 : 1 ≤ d)
    (hdlen : d ≤ shiftedLen mp)
    (hleapOK : mp = 11 ∧ d = 29 → isLeap y = true) :
    civilFromDays (daysFromCivil y m d) = (y, m, d) := by
  have hmp12 : mp < 12 := by subst hmp; split <;> omega
  obtain ⟨hmprec, hdrec, hdoy365, hdoyl1, hdoyl2⟩ := monthShifted_ok mp d hmp12 hd1 hdlen
  set yS : Int := if m ≤ 2 then y - 1 else y with hyS
  set era : Int := yS / 400 with hera
  set yoe : Nat := (yS % 400).toNat with hyoe
  have hyoeI : (yoe : Int) = yS % 400 := by omega
  have hyoe400 : yoe < 400 := by omega
  have hySsplit : yS = 400 * era + (yoe : Int) := by omega
  set doy : Nat := (153 * mp + 2) / 5 + d - 1 with hdoyDef
  set doe : Nat := 365 * yoe + yoe / 4 - yoe / 100 + doy with hdoeDef
  have hdays : daysFromCivil y m d = era * 146097 + (doe : Int) - 719468 :=
    daysFromCivil_eq y m d yS era yoe mp doy doe hyS hera hyoe hmp hdoyDef hdoeDef
  obtain ⟨hsplit, hcb, hqb, hrb, hrecomb⟩ := yoe_decomp yoe hyoe400
  set c : Nat := yoe / 100 with hcDef
  set q : Nat := yoe % 100 / 4 with hqDef
  set r : Nat := yoe % 4 with hrDef
  have hm11eq : mp = 11 → m = 2 := by
    intro h11
    by_cases h3 : m ≤ 2 <;> rw [hmp] at h11
    · rw [if_pos h3] at h11; omega
    · rw [if_neg h3] at h11; omega
  have hleapTrans : doy = 365 → r = 3 ∧ (q = 24 → c = 3) := by
    intro h365
    obtain ⟨hmp11, hd29⟩ := hdoyl1 h365
    have hL : isLeap y = true := hleapOK ⟨hmp11, hd29⟩
    have hm2' : m = 2 := hm11eq hmp11
    have hy : y = 400 * era + (yoe : Int) + 1 := by
      rw [hyS, if_pos (by omega : m ≤ 2)] at hySsplit
      omega
    rw [isLeap_iff] at hL
    omega
  have hdoeSplit : doe = 36524 * c + 1461 * q + 365 * r + doy := by omega
  obtain ⟨hstep1, hstep2, hstep3, hstep4⟩ :=
    eraSteps_ok c q r doy doe hcb hqb hrb hdoy365 hleapTrans hdoeSplit
  have hdoeBound : doe < 146097 := by omega
  have hmm : m = if mp < 10 then mp + 3 else mp - 9 := by
    by_cases h3 : m ≤ 2 <;> rw [hmp]
    · rw [if_pos h3, if_neg (by omega)]; omega
    · rw [if_neg h3, if_pos (by omega)]; omega
  have hyy : y = if m ≤ 2 then era * 400 + (yoe : Int) + 1 else era * 400 + (yoe : Int) := by
    by_cases h3 : m ≤ 2
    · rw [if_pos h3]
      rw [hyS, if_pos h3] at hySsplit
      omega
    · rw [if_neg h3]
      rw [hyS, if_neg h3] at hySsplit
      omega
  rw [hdays]
  exact civilFromDays_eq (era * 146097 + (doe : Int) - 719468)
    (era * 146097 + (doe : Int)) era doe
    (doe / 36524) c (doe - 36524 * c) q (doe - 36524 * c - 1461 * q)
    ((doe - 36524 * c - 1461 * q) / 365) r doy yoe mp d m y
    (by ring)
    (by omega)
    (by omega)
    rfl
    hstep1.symm
    rfl
    hstep2.symm
    rfl
    rfl
    hstep3.symm
    hstep4.symm
    hrecomb.symm
    hmprec.symm
    hdrec.symm
    hmm
    hyy

theorem civil_inverse (y : Int) (m d : Nat) (hm1 : 1 ≤ m) (hm2 : m ≤ 12)
    (hd1 : 1 ≤ d) (hd2 : d ≤ daysInMonth y m) :
    civilFromDays (daysFromCivil y m d) = (y, m, d) := by
  apply civil_core y m d (if m ≤ 2 then m + 9 else m - 3) rfl hm1 hm2 hd1
  · interval_cases m <;>
      norm_num [daysInMonth, monthDays, shiftedLen] at hd2 ⊢ <;>
      (try split at hd2) <;> omega
  · intro h
    obtain ⟨h11, h29⟩ := h
    have hm2' : m = 2 := by
      by_cases h3 : m ≤ 2
      · rw [if_pos h3] at h11; omega
      · rw [if_neg h3] at h11; omega
    subst hm2'
    by_cases hL : isLeap y = true
    · exact hL
    · exfalso
      norm_num [daysInMonth, monthDays, hL] at hd2
      omega

theorem unixToDateTime_eq (off t wall days : Int) (sod : Nat) (civ : Int × Nat × Nat)
    (h1 : wall = t + off) (h2 : days = wall / 86400) (h3 : sod = (wall % 86400).toNat)
    (h4 : civ = civilFromDays days) :
    unixToDateTime off t = ⟨civ.1, civ.2.1, civ.2.2, sod / 3600, sod % 3600 / 60, sod % 60⟩ := by
  subst h4 h3 h2 h1
  rfl

theorem unix_roundtrip (off : Int) (dt : DateTime)
    (hm1 : 1 ≤ dt.month) (hm2 : dt.month ≤ 12) (hd1 : 1 ≤ dt.day)
    (hd2 : dt.day ≤ daysInMonth dt.year dt.month)
    (hh : dt.hour ≤ 23) (hmi : dt.minute ≤ 59) (hs : dt.second ≤ 59) :
    unixToDateTime off (dtToUnix off dt) = dt := by
  obtain ⟨y, mo, d, h, mi, s⟩ := dt
  simp only at hm1 hm2 hd1 hd2 hh hmi hs
  have hwall : dtToUnix off ⟨y, mo, d, h, mi, s⟩ + off =
      daysFromCivil y mo d * 86400 + ((h * 3600 + mi * 60 + s : Nat) : Int) := by
    simp only [dtToUnix]
    ring
  have htod : h * 3600 + mi * 60 + s < 86400 := by omega
  have hdays : (dtToUnix off ⟨y, mo, d, h, mi, s⟩ + off) / 86400 = daysFromCivil y mo d := by
    omega
  have hsod : ((dtToUnix off ⟨y, mo, d, h, mi, s⟩ + off) % 86400).toNat =
      h * 3600 + mi * 60 + s := by
    omega
  have hciv := civil_inverse y mo d hm1 hm2 hd1 hd2
  rw [unixToDateTime_eq off (dtToUnix off ⟨y, mo, d, h, mi, s⟩)
      (dtToUnix off ⟨y, mo, d, h, mi, s⟩ + off) (daysFromCivil y mo d)
      (h * 3600 + mi * 60 + s) (y, mo, d)
      rfl hdays.symm hsod.symm hciv.symm]
  simp only [DateTime.mk.injEq]
  norm_num
  omega

theorem digit_toNat (c : Char) (h : c.isDigit = true) : 48 ≤ c.toNat ∧ c.toNat ≤ 57 := by
  simp [Char.isDigit, Char.le_def, decide_eq_true_eq] at h
  exact h

theorem digitVal_le9 (c : Char) (h : c.isDigit = true) : digitVal c ≤ 9 := by
  obtain ⟨h1, h2⟩ := digit_toNat c h
  unfold digitVal
  omega

theorem digitChar_digitVal (c : Char) (h : c.isDigit = true) : digitChar (digitVal c) = c := by
  obtain ⟨h1, h2⟩ := digit_toNat c h
  unfold digitChar digitVal
  have he : 48 + (c.toNat - 48) = c.toNat := by omega
  rw [he, Char.ofNat_toNat]

theorem digitChar_isDigit (k : Nat) (h : k ≤ 9) :
    (digitChar k).isDigit = true ∧ digitVal (digitChar k) = k := by
  interval_cases k <;> exact ⟨by decide, by decide⟩

theorem getnum_fixed_complete (n : Nat) (h : n ≤ 99) (rest : List Char) :
    getnum true (pad2Chars n ++ rest) = some (n, rest) := by
  have h1 := digitChar_isDigit (n / 10) (by omega)
  have h2 := digitChar_isDigit (n % 10) (by omega)
  show getnum true (digitChar (n / 10) :: digitChar (n % 10) :: rest) = some (n, rest)
  simp [getnum, h1.1, h2.1, h1.2, h2.2]
  omega

theorem getnum_lax_two (n : Nat) (h : n ≤ 99) (rest : List Char) :
    getnum false (pad2Chars n ++ rest) = some (n, rest) := by
  have h1 := digitChar_isDigit (n / 10) (by omega)
  have h2 := digitChar_isDigit (n % 10) (by omega)
  show getnum false (digitChar (n / 10) :: digitChar (n % 10) :: rest) = some (n, rest)
  simp [getnum, h1.1, h2.1, h1.2, h2.2]
  omega

theorem getnum_lax_single (n : Nat) (h : n ≤ 9) (c : Char) (hc : c.isDigit = false)
    (rest : List Char) :
    getnum false (digitChar n :: c :: rest) = some (n, c :: rest) := by
  have h1 := digitChar_isDigit n h
  simp [getnum, h1.1, h1.2, hc]

theorem getnum_fixed_sound (cs rest : List Char) (n : Nat)
    (h : getnum true cs = some (n, rest)) :
    n ≤ 99 ∧ cs = pad2Chars n ++ rest := by
  match cs with
  | [] => simp [getnum] at h
  | [c] => simp [getnum] at h
  | c1 :: c2 :: rest' =>
      by_cases h1 : c1.isDigit
      · by_cases h2 : c2.isDigit
        · simp [getnum, h1, h2] at h
          obtain ⟨hn, hrest⟩ := h
          have v1 := digitVal_le9 c1 h1
          have v2 := digitVal_le9 c2 h2
          have e1 : digitVal c1 = n / 10 := by omega
          have e2 : digitVal c2 = n % 10 := by omega
          refine ⟨by omega, ?_⟩
          show c1 :: c2 :: rest' = digitChar (n / 10) :: digitChar (n % 10) :: rest
          rw [← e1, ← e2, digitChar_digitVal c1 h1, digitChar_digitVal c2 h2, hrest]
        · simp [getnum, h1, h2] at h
      · simp [getnum, h1] at h

theorem getnum_lax_sound (cs rest : List Char) (n : Nat)
    (h : getnum false cs = some (n, rest)) :
    (n ≤ 99 ∧ cs = pad2Chars n ++ rest) ∨ (n ≤ 9 ∧ cs = digitChar n :: rest) := by
  match cs with
  | [] => simp [getnum] at h
  | [c] =>
      simp [getnum] at h
      by_cases h1 : c.isDigit
      · simp [h1] at h
        right
        have := digitVal_le9 c h1
        refine ⟨by omega, ?_⟩
        rw [← h.2, ← h.1, digitChar_digitVal c h1]
      · simp [h1] at h
  | c1 :: c2 :: rest' =>
      by_cases h1 : c1.isDigit
      · by_cases h2 : c2.isDigit
        · simp [getnum, h1, h2] at h
          obtain ⟨hn, hrest⟩ := h
          have v1 := digitVal_le9 c1 h1
          have v2 := digitVal_le9 c2 h2
          have e1 : digitVal c1 = n / 10 := by omega
          have e2 : digitVal c2 = n % 10 := by omega
          left
          refine ⟨by omega, ?_⟩
          show c1 :: c2 :: rest' = digitChar (n / 10) :: digitChar (n % 10) :: rest
          rw [← e1, ← e2, digitChar_digitVal c1 h1, digitChar_digitVal c2 h2, hrest]
        · simp [getnum, h1, h2] at h
          right
          have := digitVal_le9 c1 h1
          refine ⟨by omega, ?_⟩
          rw [← h.1, digitChar_digitVal c1 h1, h.2]
      · simp [getnum, h1] at h

theorem read4_complete (n : Nat) (h : n ≤ 9999) (rest : List Char) :
    read4digits (pad4Chars n ++ rest) = some (n, rest) := by
  have h1 := digitChar_isDigit (n / 1000) (by omega)
  have h2 := digitChar_isDigit (n / 100 % 10) (by omega)
  have h3 := digitChar_isDigit (n / 10 % 10) (by omega)
  have h4 := digitChar_isDigit (n % 10) (by omega)
  show read4digits (digitChar (n / 1000) :: digitChar (n / 100 % 10) ::
    digitChar (n / 10 % 10) :: digitChar (n % 10) :: rest) = some (n, rest)
  simp [read4digits, h1.1, h2.1, h3.1, h4.1, h1.2, h2.2, h3.2, h4.2]
  omega

theorem read4_sound (cs rest : List Char) (n : Nat)
    (h : read4digits cs = some (n, rest)) :
    n ≤ 9999 ∧ cs = pad4Chars n ++ rest := by
  match cs with
  | [] => simp [read4digits] at h
  | [c] => simp [read4digits] at h
  | [c1, c2] => simp [read4digits] at h
  | [c1, c2, c3] => simp [read4digits] at h
  | c1 :: c2 :: c3 :: c4 :: rest' =>
      by_cases hd : c1.isDigit ∧ c2.isDigit ∧ c3.isDigit ∧ c4.isDigit
      · obtain ⟨h1, h2, h3, h4⟩ := hd
        simp [read4digits, h1, h2, h3, h4] at h
        obtain ⟨hn, hrest⟩ := h
        have v1 := digitVal_le9 c1 h1
        have v2 := digitVal_le9 c2 h2
        have v3 := digitVal_le9 c3 h3
        have v4 := digitVal_le9 c4 h4
        have e1 : digitVal c1 = n / 1000 := by omega
        have e2 : digitVal c2 = n / 100 % 10 := by omega
        have e3 : digitVal c3 = n / 10 % 10 := by omega
        have e4 : digitVal c4 = n % 10 := by omega
        refine ⟨by omega, ?_⟩
        show c1 :: c2 :: c3 :: c4 :: rest' = digitChar (n / 1000) :: digitChar (n / 100 % 10) ::
          digitChar (n / 10 % 10) :: digitChar (n % 10) :: rest
        rw [← e1, ← e2, ← e3, ← e4, digitChar_digitVal c1 h1, digitChar_digitVal c2 h2,
          digitChar_digitVal c3 h3, digitChar_digitVal c4 h4, hrest]
      · simp [read4digits, hd] at h

theorem expectChar_some (c : Char) (cs rest : List Char) :
    expectChar c cs = some rest ↔ cs = c :: rest := by
  match cs with
  | [] => simp [expectChar]
  | x :: tl =>
      by_cases hx : x = c
      · subst hx
        simp [expectChar]
      · simp [expectChar, hx]

theorem getnum_fixed_complete_nil (n : Nat) (h : n ≤ 99) :
    getnum true (pad2Chars n) = some (n, []) := by
  have hx := getnum_fixed_complete n h []
  rwa [List.append_nil] at hx

theorem dropDigits_nil : ∀ (l : List Char), dropDigits l = [] → l.all Char.isDigit = true
  | [], _ => rfl
  | c :: cs, h => by
      rw [dropDigits] at h
      by_cases hc : c.isDigit = true
      · rw [if_pos hc] at h
        simp only [List.all_cons, hc, Bool.true_and]
        exact dropDigits_nil cs h
      · rw [if_neg hc] at h
        exact List.noConfusion h

theorem dropDigits_of_all : ∀ (l : List Char), l.all Char.isDigit = true → dropDigits l = []
  | [], _ => rfl
  | c :: cs, h => by
      simp only [List.all_cons, Bool.and_eq_true] at h
      rw [dropDigits, if_pos h.1]
      exact dropDigits_of_all cs h.2

/-- A leftover that the fractional-second special case fully consumes
is one of the accepted fractional suffixes. -/
theorem eatFrac_nil_fracOk (cs : List Char) (h : eatFrac cs = []) : fracOkB cs = true := by
  match cs with
  | [] => rfl
  | [c] =>
      have he : eatFrac [c] = [c] := rfl
      rw [he] at h
      exact List.noConfusion h
  | c0 :: c1 :: rest =>
      rw [eatFrac] at h
      by_cases hcond : (c0 = '.' ∨ c0 = ',') ∧ c1.isDigit = true
      · rw [if_pos hcond] at h
        have hall := dropDigits_nil rest h
        obtain ⟨hp, hd⟩ := hcond
        simp only [fracOkB, List.all_cons, List.isEmpty_cons, Bool.not_false, hd, hall]
        rcases hp with hp | hp <;> simp [hp]
      · rw [if_neg hcond] at h
        exact List.noConfusion h

/-- Conversely, every accepted fractional suffix is fully consumed. -/
theorem eatFrac_of_fracOk (frac : List Char) (h : fracOkB frac = true) : eatFrac frac = [] := by
  match frac with
  | [] => rfl
  | [c] => simp [fracOkB] at h
  | c0 :: c1 :: rest =>
      simp only [fracOkB, List.isEmpty_cons, Bool.not_false, Bool.and_eq_true,
        Bool.or_eq_true, beq_iff_eq, List.all_cons] at h
      obtain ⟨⟨hp, -⟩, hd, hall⟩ := h
      rw [eatFrac, if_pos ⟨hp, hd⟩]
      exact dropDigits_of_all rest hall

theorem parseLayout_sound (cs : List Char) (dt : DateTime) (h : parseLayout cs = some dt) :
    validDT dt ∧ ∃ frac, fracOkB frac = true ∧
      (cs = renderChars dt ++ frac ∨ (dt.hour < 10 ∧ cs = renderLaxChars dt ++ frac)) := by
  unfold parseLayout at h
  cases hy : read4digits cs with
  | none => simp only [hy] at h; exact Option.noConfusion h
  | some py =>
  obtain ⟨y, cs1⟩ := py
  simp only [hy] at h
  cases hc1 : expectChar '-' cs1 with
  | none => simp only [hc1] at h; exact Option.noConfusion h
  | some cs2 =>
  simp only [hc1] at h
  cases hmo : getnum true cs2 with
  | none => simp only [hmo] at h; exact Option.noConfusion h
  | some pmo =>
  obtain ⟨mo, cs3⟩ := pmo
  simp only [hmo] at h
  cases hc2 : expectChar '-' cs3 with
  | none => simp only [hc2] at h; exact Option.noConfusion h
  | some cs4 =>
  simp only [hc2] at h
  cases hd : getnum true cs4 with
  | none => simp only [hd] at h; exact Option.noConfusion h
  | some pd =>
  obtain ⟨d, cs5⟩ := pd
  simp only [hd] at h
  cases hc3 : expectChar ' ' cs5 with
  | none => simp only [hc3] at h; exact Option.noConfusion h
  | some cs6 =>
  simp only [hc3] at h
  cases hhh : getnum false cs6 with
  | none => simp only [hhh] at h; exact Option.noConfusion h
  | some ph =>
  obtain ⟨hh, cs7⟩ := ph
  simp only [hhh] at h
  cases hc4 : expectChar ':' cs7 with
  | none => simp only [hc4] at h; exact Option.noConfusion h
  | some cs8 =>
  simp only [hc4] at h
  cases hmi : getnum true cs8 with
  | none => simp only [hmi] at h; exact Option.noConfusion h
  | some pmi =>
  obtain ⟨mi, cs9⟩ := pmi
  simp only [hmi] at h
  cases hc5 : expectChar ':' cs9 with
  | none => simp only [hc5] at h; exact Option.noConfusion h
  | some cs10 =>
  simp only [hc5] at h
  cases hsec : getnum true cs10 with
  | none => simp only [hsec] at h; exact Option.noConfusion h
  | some psec =>
  obtain ⟨sec, cs11⟩ := psec
  simp only [hsec] at h
  split at h
  case isFalse => exact Option.noConfusion h
  case isTrue hcond =>
    injection h with hdt
    obtain ⟨hfrac, h24, h60, h60s, hmo1, hmo2, hd1, hd2⟩ := hcond
    obtain ⟨hy9999, hcs⟩ := read4_sound cs cs1 y hy
    rw [(expectChar_some _ _ _).mp hc1] at hcs
    obtain ⟨hmo99, hcs2⟩ := getnum_fixed_sound cs2 cs3 mo hmo
    rw [hcs2, (expectChar_some _ _ _).mp hc2] at hcs
    obtain ⟨hd99, hcs4⟩ := getnum_fixed_sound cs4 cs5 d hd
    rw [hcs4, (expectChar_some _ _ _).mp hc3] at hcs
    obtain ⟨hmi99, hcs8⟩ := getnum_fixed_sound cs8 cs9 mi hmi
    obtain ⟨hsec99, hcs10⟩ := getnum_fixed_sound cs10 cs11 sec hsec
    subst hdt
    have hval : validDT ⟨(y : Int), mo, d, hh, mi, sec⟩ := by
      unfold validDT
      dsimp only
      refine ⟨by omega, by omega, hmo1, hmo2, hd1, hd2, by omega, by omega, by omega⟩
    refine ⟨hval, cs11, eatFrac_nil_fracOk cs11 hfrac, ?_⟩
    have hytoNat : ((y : Int)).toNat = y := by omega
    rcases getnum_lax_sound cs6 cs7 hh hhh with ⟨hh99, hcs6⟩ | ⟨hh9, hcs6⟩
    · left
      rw [hcs6, (expectChar_some _ _ _).mp hc4] at hcs
      rw [hcs8, (expectChar_some _ _ _).mp hc5, hcs10] at hcs
      rw [hcs]
      simp [renderChars, hytoNat, List.append_assoc, List.cons_append]
    · right
      refine ⟨?_, ?_⟩
      · show hh < 10
        omega
      · rw [hcs6, (expectChar_some _ _ _).mp hc4] at hcs
        rw [hcs8, (expectChar_some _ _ _).mp hc5, hcs10] at hcs
        rw [hcs]
        simp [renderLaxChars, hytoNat, List.append_assoc, List.cons_append]

theorem daysInMonth_le31 (y : Int) (m : Nat) : daysInMonth y m ≤ 31 := by
  unfold daysInMonth
  split
  · omega
  · have h12 : ∀ k, monthDays.getD k 0 ≤ 31 := by
      intro k
      match k with
      | 0 => decide
      | 1 => decide
      | 2 => decide
      | 3 => decide
      | 4 => decide
      | 5 => decide
      | 6 => decide
      | 7 => decide
      | 8 => decide
      | 9 => decide
      | 10 => decide
      | 11 => decide
      | n + 12 =>
          rw [List.getD_eq_default]
          · omega
          · have h12 : monthDays.length = 12 := rfl
            omega
    exact h12 (m - 1)

theorem parseLayout_complete (dt : DateTime) (h : validDT dt) (frac : List Char)
    (hfrac : fracOkB frac = true) :
    parseLayout (renderChars dt ++ frac) = some dt ∧
    (dt.hour < 10 → parseLayout (renderLaxChars dt ++ frac) = some dt) := by
  obtain ⟨y, mo, d, hh, mi, s⟩ := dt
  obtain ⟨h0, h9999, hmo1, hmo2, hd1, hd2, hhh, hmmi, hss⟩ := h
  simp only at h0 h9999 hmo1 hmo2 hd1 hd2 hhh hmmi hss
  have hcast : ((y.toNat : Int)) = y := by omega
  have hdm := daysInMonth_le31 y mo
  have heat := eatFrac_of_fracOk frac hfrac
  constructor
  · show parseLayout ((pad4Chars y.toNat ++ '-' :: pad2Chars mo ++ '-' :: pad2Chars d ++
      ' ' :: pad2Chars hh ++ ':' :: pad2Chars mi ++ ':' :: pad2Chars s) ++ frac) = _
    simp only [List.cons_append, List.append_assoc]
    simp [parseLayout, expectChar,
      read4_complete y.toNat (by omega),
      getnum_fixed_complete mo (by omega), getnum_fixed_complete d (by omega),
      getnum_lax_two hh (by omega), getnum_fixed_complete mi (by omega),
      getnum_fixed_complete s (by omega), heat, hcast, hmo1, hmo2, hd1, hd2,
      show hh < 24 from by omega, show mi < 60 from by omega, show s < 60 from by omega]
  · intro h10
    have h10' : hh < 10 := h10
    show parseLayout ((pad4Chars y.toNat ++ '-' :: pad2Chars mo ++ '-' :: pad2Chars d ++
      ' ' :: digitChar hh :: ':' :: pad2Chars mi ++ ':' :: pad2Chars s) ++ frac) = _
    simp only [List.cons_append, List.append_assoc]
    simp [parseLayout, expectChar,
      read4_complete y.toNat (by omega),
      getnum_fixed_complete mo (by omega), getnum_fixed_complete d (by omega),
      getnum_lax_single hh (by omega) ':' (by decide),
      getnum_fixed_complete mi (by omega),
      getnum_fixed_complete s (by omega), heat, hcast, hmo1, hmo2, hd1, hd2,
      show hh < 24 from by omega, show mi < 60 from by omega, show s < 60 from by omega]

/-- The fuel-bounded log2 is the floor of log2 whenever the fuel is at
least the argument. -/
theorem log2fuel_spec : ∀ (fuel n : Nat), 1 ≤ n → n ≤ fuel →
    2 ^ log2fuel fuel n ≤ n ∧ n < 2 ^ (log2fuel fuel n + 1)
  | 0, _, h1, h2 => by omega
  | fuel + 1, n, h1, h2 => by
      rw [log2fuel]
      by_cases h64 : 2 ^ 64 ≤ n
      · rw [if_pos h64]
        have hq : 1 ≤ n / 2 ^ 64 := (Nat.one_le_div_iff (by norm_num)).mpr h64
        have hq2 : n / 2 ^ 64 ≤ fuel := by
          have := Nat.div_le_self n (2 ^ 64)
          have hlt : n / 2 ^ 64 < n := Nat.div_lt_self (by omega) (by norm_num)
          omega
        have ih := log2fuel_spec fuel (n / 2 ^ 64) hq hq2
        have hdiv := Nat.div_add_mod n (2 ^ 64)
        have hmod := Nat.mod_lt n (show 0 < 2 ^ 64 by norm_num)
        set L := log2fuel fuel (n / 2 ^ 64) with hL
        have e1 : (2:Nat) ^ (L + 64) = 2 ^ L * 2 ^ 64 := by rw [pow_add]
        have e2 : (2:Nat) ^ (L + 64 + 1) = 2 ^ (L + 1) * 2 ^ 64 := by ring
        constructor
        · have h1' : 2 ^ L * 2 ^ 64 ≤ (n / 2 ^ 64) * 2 ^ 64 :=
            Nat.mul_le_mul_right _ ih.1
          have h2' : (n / 2 ^ 64) * 2 ^ 64 = 2 ^ 64 * (n / 2 ^ 64) := by ring
          omega
        · have h1' : (n / 2 ^ 64 + 1) * 2 ^ 64 ≤ 2 ^ (L + 1) * 2 ^ 64 :=
            Nat.mul_le_mul_right _ (by omega)
          have h2' : (n / 2 ^ 64 + 1) * 2 ^ 64 = 2 ^ 64 * (n / 2 ^ 64) + 2 ^ 64 := by ring
          omega
      · rw [if_neg h64]
        by_cases h : 2 ≤ n
        · rw [if_pos h]
          have ih := log2fuel_spec fuel (n / 2) (by omega) (by omega)
          have e1 : (2:Nat) ^ (log2fuel fuel (n / 2) + 1) = 2 * 2 ^ log2fuel fuel (n / 2) := by
            ring
          have e2 : (2:Nat) ^ (log2fuel fuel (n / 2) + 1 + 1) =
              2 * 2 ^ (log2fuel fuel (n / 2) + 1) := by ring
          omega
        · rw [if_neg h]
          simp only [pow_zero, zero_add, pow_one]
          omega

theorem nlog2_spec (n : Nat) (hn : 1 ≤ n) :
    2 ^ nlog2 n ≤ n ∧ n < 2 ^ (nlog2 n + 1) :=
  log2fuel_spec n n hn le_rfl

/-- Round-to-nearest error bound: 2·d·rneDiv a d is within d of 2·a. -/
theorem rneDiv_bounds (a b : Nat) (hb : 0 < b) :
    2 * a ≤ 2 * (b * rneDiv a b) + b ∧ 2 * (b * rneDiv a b) ≤ 2 * a + b := by
  have hd := Nat.div_add_mod a b
  have hr := Nat.mod_lt a hb
  rw [rneDiv]
  have hm : b * (a / b + 1) = b * (a / b) + b := by ring
  split
  · omega
  · split
    · omega
    · split
      · omega
      · omega

/-- Exact division rounds exactly. -/
theorem rneDiv_exact (a b : Nat) (hb : 0 < b) (hdvd : b ∣ a) :
    b * rneDiv a b = a := by
  obtain ⟨k, rfl⟩ := hdvd
  rw [rneDiv]
  have h0 : b * k % b = 0 := Nat.mul_mod_right b k
  have h1 : b * k / b = k := Nat.mul_div_cancel_left k hb
  rw [h0, h1, if_pos (by omega : 2 * 0 < b)]

/-- The bracketing property of ilog2, stated uniformly: one of the two
toNat exponents is zero, and multiplying the inequality chain
2^(ilog2 n d) ≤ n/d < 2^(ilog2 n d + 1) through clears it. -/
theorem ilog2_spec (n d : Nat) (hn : 1 ≤ n) (hd : 1 ≤ d) :
    d * 2 ^ (ilog2 n d).toNat ≤ n * 2 ^ (-(ilog2 n d)).toNat ∧
    n * 2 ^ (-(ilog2 n d)).toNat < 2 * (d * 2 ^ (ilog2 n d).toNat) := by
  obtain ⟨ha1, ha2⟩ := nlog2_spec n hn
  obtain ⟨hb1, hb2⟩ := nlog2_spec d hd
  simp only [ilog2]
  set a := nlog2 n with haDef
  set b := nlog2 d with hbDef
  split
  · rename_i h
    rcases Nat.le_total b a with hba | hba
    · have hb0 : b - a = 0 := by omega
      rw [hb0, pow_zero, mul_one] at h
      have e1 : (((a : Int) - b)).toNat = a - b := by omega
      have e2 : ((-((a : Int) - b))).toNat = 0 := by omega
      rw [e1, e2, pow_zero, mul_one]
      refine ⟨h, ?_⟩
      have hpow : (2:Nat) ^ a = 2 ^ b * 2 ^ (a - b) := by
        rw [← pow_add]
        congr 1
        omega
      have hmono : 2 ^ b * 2 ^ (a - b) ≤ d * 2 ^ (a - b) :=
        Nat.mul_le_mul_right _ hb1
      have hpow2 : (2:Nat) ^ (a + 1) = 2 * 2 ^ a := by ring
      omega
    · have ha0 : a - b = 0 := by omega
      rw [ha0, pow_zero, mul_one] at h
      have e1 : (((a : Int) - b)).toNat = 0 := by omega
      have e2 : ((-((a : Int) - b))).toNat = b - a := by omega
      rw [e1, e2, pow_zero, mul_one]
      refine ⟨h, ?_⟩
      have hpow : (2:Nat) ^ b = 2 ^ a * 2 ^ (b - a) := by
        rw [← pow_add]
        congr 1
        omega
      have hmono : n * 2 ^ (b - a) < 2 ^ (a + 1) * 2 ^ (b - a) :=
        (Nat.mul_lt_mul_right (pow_pos (by norm_num) _)).mpr ha2
      have hpow2 : (2:Nat) ^ (a + 1) * 2 ^ (b - a) = 2 * (2 ^ a * 2 ^ (b - a)) := by ring
      omega
  · rename_i h
    push_neg at h
    rcases Nat.lt_or_ge b a with hba | hba
    · have hb0 : b - a = 0 := by omega
      rw [hb0, pow_zero, mul_one] at h
      have e1 : (((a : Int) - b - 1)).toNat = a - b - 1 := by omega
      have e2 : ((-((a : Int) - b - 1))).toNat = 0 := by omega
      rw [e1, e2, pow_zero, mul_one]
      constructor
      · have hpow : (2:Nat) ^ a = 2 ^ (b + 1) * 2 ^ (a - b - 1) := by
          rw [← pow_add]
          congr 1
          omega
        have hmono : d * 2 ^ (a - b - 1) ≤ 2 ^ (b + 1) * 2 ^ (a - b - 1) :=
          Nat.mul_le_mul_right _ (by omega)
        omega
      · have hpow : (2:Nat) ^ (a - b) = 2 * 2 ^ (a - b - 1) := by
          rw [← pow_succ']
          congr 1
          omega
        have hmul : d * 2 ^ (a - b) = 2 * (d * 2 ^ (a - b - 1)) := by
          rw [hpow]
          ring
        omega
    · have ha0 : a - b = 0 := by omega
      rw [ha0, pow_zero, mul_one] at h
      have e1 : (((a : Int) - b - 1)).toNat = 0 := by omega
      have e2 : ((-((a : Int) - b - 1))).toNat = b + 1 - a := by omega
      rw [e1, e2, pow_zero, mul_one]
      constructor
      · have hpow : (2:Nat) ^ (b + 1) = 2 ^ a * 2 ^ (b + 1 - a) := by
          rw [← pow_add]
          congr 1
          omega
        have hmono : 2 ^ a * 2 ^ (b + 1 - a) ≤ n * 2 ^ (b + 1 - a) :=
          Nat.mul_le_mul_right _ ha1
        omega
      · have hpow : (2:Nat) ^ (b + 1 - a) = 2 * 2 ^ (b - a) := by
          rw [← pow_succ']
          congr 1
          omega
        have hmul : n * 2 ^ (b + 1 - a) = 2 * (n * 2 ^ (b - a)) := by
          rw [hpow]
          ring
        omega

/-- Core rounding lemma: dividing an integer s ≤ 2^52 (scaled by any
positive den) by den·c, the rounded binary64 quotient lies in the same
unit interval [s/c, s/c + 1) as the exact quotient, so truncation gives
the truncating integer division.  The returned M/D is the rounded
value. -/
theorem roundF64Pos_trunc (s den c : Nat) (hs1 : 1 ≤ s) (hs2 : s ≤ 2 ^ 52)
    (hden : 1 ≤ den) (hc : 2 ≤ c) (hc2 : c ≤ 2 ^ 52) :
    ∃ M D : Nat, roundF64Pos (s * den) (den * c) = GoFloat.finite ⟨(M : Int), D⟩ ∧
      0 < D ∧ (s / c) * D ≤ M ∧ M < (s / c + 1) * D := by
  have hn : 1 ≤ s * den := by
    have := Nat.mul_le_mul hs1 hden
    omega
  have hd : 1 ≤ den * c := by
    have := Nat.mul_le_mul hden (show 1 ≤ c by omega)
    omega
  obtain ⟨hsp1, hsp2⟩ := ilog2_spec (s * den) (den * c) hn hd
  set e := ilog2 (s * den) (den * c) with heDef
  -- Step A: e ≤ 51
  have he51 : e ≤ 51 := by
    by_contra hcon
    push_neg at hcon
    have heT : 52 ≤ e.toNat := by omega
    have hneg : (-e).toNat = 0 := by omega
    rw [hneg, pow_zero, mul_one] at hsp1
    have hp1 : (2:Nat) ^ 52 ≤ 2 ^ e.toNat := Nat.pow_le_pow_right (by norm_num) heT
    have hup : s * den ≤ 2 ^ 52 * den := Nat.mul_le_mul_right den hs2
    have hlow : den * 2 * 2 ^ 52 ≤ den * c * 2 ^ e.toNat :=
      Nat.mul_le_mul (Nat.mul_le_mul_left den hc) hp1
    have hx : den * 2 * 2 ^ 52 = 2 * (2 ^ 52 * den) := by ring
    have hone : 1 ≤ 2 ^ 52 * den := Nat.mul_le_mul (Nat.one_le_two_pow) hden
    omega
  -- Step B: -52 ≤ e
  have heLow : -52 ≤ e := by
    by_contra hcon
    push_neg at hcon
    have hzT : e.toNat = 0 := by omega
    have hF : 53 ≤ (-e).toNat := by omega
    rw [hzT, pow_zero, mul_one] at hsp2
    have hp1 : (2:Nat) ^ 53 ≤ 2 ^ (-e).toNat := Nat.pow_le_pow_right (by norm_num) hF
    have h1 : den * 2 ^ 53 ≤ den * 2 ^ (-e).toNat := Nat.mul_le_mul_left den hp1
    have h2 : den * 2 ^ (-e).toNat ≤ s * den * 2 ^ (-e).toNat := by
      have h2a : den ≤ s * den := by
        have := Nat.mul_le_mul hs1 (le_refl den)
        omega
      exact Nat.mul_le_mul_right _ h2a
    have h3 : den * c ≤ den * 2 ^ 52 := Nat.mul_le_mul_left den hc2
    have hx : den * 2 ^ 53 = 2 * (den * 2 ^ 52) := by ring
    omega
  -- Step C: the scaled bracket  d·2^52 ≤ n·2^S < 2^53·d  with S = 52 − e
  set S := (52 - e).toNat with hSDef
  have hS1 : 1 ≤ S := by omega
  have hbr : den * c * 2 ^ 52 ≤ s * den * 2 ^ S ∧
      s * den * 2 ^ S < 2 ^ 53 * (den * c) := by
    rcases Int.le_or_lt 0 e with hpos | hneg
    · have h0 : (-e).toNat = 0 := by omega
      rw [h0, pow_zero, mul_one] at hsp1 hsp2
      have hES : e.toNat + S = 52 := by omega
      have hpow : (2:Nat) ^ 52 = 2 ^ e.toNat * 2 ^ S := by
        rw [← pow_add, hES]
      constructor
      · have h1 : den * c * 2 ^ e.toNat * 2 ^ S ≤ s * den * 2 ^ S :=
          Nat.mul_le_mul_right _ hsp1
        have h2 : den * c * 2 ^ 52 = den * c * 2 ^ e.toNat * 2 ^ S := by
          rw [hpow]
          ring
        omega
      · have h1 : s * den * 2 ^ S < 2 * (den * c * 2 ^ e.toNat) * 2 ^ S :=
          (Nat.mul_lt_mul_right (pow_pos (by norm_num) _)).mpr hsp2
        have h2 : 2 * (den * c * 2 ^ e.toNat) * 2 ^ S = 2 ^ 53 * (den * c) := by
          have h53 : (2:Nat) ^ 53 = 2 * 2 ^ 52 := by ring
          rw [h53, hpow]
          ring
        omega
    · have h0 : e.toNat = 0 := by omega
      rw [h0, pow_zero, mul_one] at hsp1 hsp2
      have hES : S = (-e).toNat + 52 := by omega
      have hpow : (2:Nat) ^ S = 2 ^ (-e).toNat * 2 ^ 52 := by
        rw [← pow_add, hES]
      constructor
      · have h1 : den * c * 2 ^ 52 ≤ s * den * 2 ^ (-e).toNat * 2 ^ 52 :=
          Nat.mul_le_mul_right _ hsp1
        have h2 : s * den * 2 ^ (-e).toNat * 2 ^ 52 = s * den * 2 ^ S := by
          rw [hpow]
          ring
        omega
      · have h1 : s * den * 2 ^ (-e).toNat * 2 ^ 52 < 2 * (den * c) * 2 ^ 52 :=
          (Nat.mul_lt_mul_right (pow_pos (by norm_num) _)).mpr hsp2
        have h2 : s * den * 2 ^ (-e).toNat * 2 ^ 52 = s * den * 2 ^ S := by
          rw [hpow]
          ring
        have h3 : 2 * (den * c) * 2 ^ 52 = 2 ^ 53 * (den * c) := by
          have h53 : (2:Nat) ^ 53 = 2 * 2 ^ 52 := by ring
          rw [h53]
          ring
        omega
  obtain ⟨hb1, hb2⟩ := hbr
  -- Step D: the rounded significand m and its range
  set m := rneDiv (s * den * 2 ^ S) (den * c) with hmDef
  obtain ⟨hr1, hr2⟩ := rneDiv_bounds (s * den * 2 ^ S) (den * c) (by omega)
  rw [← hmDef] at hr1 hr2
  have hm52 : 2 ^ 52 ≤ m := by
    have h1 : 2 * (den * c * 2 ^ 52) ≤ 2 * (den * c * m) + den * c := by omega
    have h2 : den * c * (2 ^ 53) ≤ den * c * (2 * m + 1) := by
      have e1 : den * c * 2 ^ 53 = 2 * (den * c * 2 ^ 52) := by
        have h53 : (2:Nat) ^ 53 = 2 * 2 ^ 52 := by ring
        rw [h53]
        ring
      have e2 : den * c * (2 * m + 1) = 2 * (den * c * m) + den * c := by ring
      omega
    have h3 : 2 ^ 53 ≤ 2 * m + 1 := Nat.le_of_mul_le_mul_left h2 (by omega)
    have h53 : (2:Nat) ^ 53 = 2 * 2 ^ 52 := by ring
    omega
  have hm53 : m ≤ 2 ^ 53 := by
    have h1 : 2 * (den * c * m) < 2 * (2 ^ 53 * (den * c)) + den * c := by omega
    have h2 : den * c * (2 * m) < den * c * (2 * 2 ^ 53 + 1) := by
      have e1 : den * c * (2 * m) = 2 * (den * c * m) := by ring
      have e2 : den * c * (2 * 2 ^ 53 + 1) = 2 * (2 ^ 53 * (den * c)) + den * c := by ring
      omega
    have h3 : 2 * m < 2 * 2 ^ 53 + 1 := Nat.lt_of_mul_lt_mul_left h2
    omega
  -- Step E: c ≤ 2^S
  have hcS : c ≤ 2 ^ S := by
    have h1 : den * c * 2 ^ 52 ≤ den * (2 ^ 52 * 2 ^ S) := by
      have h2 : s * den * 2 ^ S ≤ 2 ^ 52 * den * 2 ^ S :=
        Nat.mul_le_mul_right _ (Nat.mul_le_mul_right den hs2)
      have e1 : 2 ^ 52 * den * 2 ^ S = den * (2 ^ 52 * 2 ^ S) := by ring
      omega
    have h2 : den * (c * 2 ^ 52) ≤ den * (2 ^ 52 * 2 ^ S) := by
      have e1 : den * (c * 2 ^ 52) = den * c * 2 ^ 52 := by ring
      omega
    have h3 : c * 2 ^ 52 ≤ 2 ^ 52 * 2 ^ S := Nat.le_of_mul_le_mul_left h2 (by omega)
    have h4 : 2 ^ 52 * c ≤ 2 ^ 52 * 2 ^ S := by
      have e1 : 2 ^ 52 * c = c * 2 ^ 52 := by ring
      omega
    exact Nat.le_of_mul_le_mul_left h4 (by positivity)
  -- Step F: the den-cancelled rounding bounds  |2·c·m − 2·s·2^S| ≤ c
  have hf1 : 2 * (s * 2 ^ S) ≤ 2 * (c * m) + c := by
    have h1 : den * (2 * (s * 2 ^ S)) ≤ den * (2 * (c * m) + c) := by
      have e1 : den * (2 * (s * 2 ^ S)) = 2 * (s * den * 2 ^ S) := by ring
      have e2 : den * (2 * (c * m) + c) = 2 * (den * c * m) + den * c := by ring
      omega
    exact Nat.le_of_mul_le_mul_left h1 (by omega)
  have hf2 : 2 * (c * m) ≤ 2 * (s * 2 ^ S) + c := by
    have h1 : den * (2 * (c * m)) ≤ den * (2 * (s * 2 ^ S) + c) := by
      have e1 : den * (2 * (c * m)) = 2 * (den * c * m) := by ring
      have e2 : den * (2 * (s * 2 ^ S) + c) = 2 * (s * den * 2 ^ S) + den * c := by ring
      omega
    exact Nat.le_of_mul_le_mul_left h1 (by omega)
  -- Step G: the truncation bracket  k·2^S ≤ m < (k+1)·2^S  for k = s/c
  have hdm := Nat.div_add_mod s c
  have hrlt : s % c < c := Nat.mod_lt s (by omega)
  have hbra : (s / c) * 2 ^ S ≤ m ∧ m < (s / c + 1) * 2 ^ S := by
    rcases Nat.eq_zero_or_pos (s % c) with hr0 | hrpos
    · have hdvd : den * c ∣ s * den * 2 ^ S := by
        refine ⟨(s / c) * 2 ^ S, ?_⟩
        have hs' : s = c * (s / c) := by omega
        calc s * den * 2 ^ S = (c * (s / c)) * den * 2 ^ S := by rw [← hs']
          _ = den * c * ((s / c) * 2 ^ S) := by ring
      have hex := rneDiv_exact (s * den * 2 ^ S) (den * c) (by omega) hdvd
      rw [← hmDef] at hex
      have hmeq : m = (s / c) * 2 ^ S := by
        have h1 : den * c * m = den * c * ((s / c) * 2 ^ S) := by
          have hs' : s = c * (s / c) := by omega
          have e1 : s * den * 2 ^ S = den * c * ((s / c) * 2 ^ S) := by
            calc s * den * 2 ^ S = (c * (s / c)) * den * 2 ^ S := by rw [← hs']
              _ = den * c * ((s / c) * 2 ^ S) := by ring
          omega
        exact Nat.eq_of_mul_eq_mul_left (by omega) h1
      constructor
      · omega
      · have e1 : (s / c + 1) * 2 ^ S = (s / c) * 2 ^ S + 2 ^ S := by ring
        have hp : 1 ≤ 2 ^ S := Nat.one_le_two_pow
        omega
    · constructor
      · by_contra hcon
        push_neg at hcon
        have h1 : 2 * (c * m) ≤ 2 * (c * ((s / c) * 2 ^ S)) := by
          have := Nat.mul_le_mul_left c (Nat.le_of_lt_succ (by omega : m < (s / c) * 2 ^ S + 1))
          omega
        have hexp : s * 2 ^ S = c * ((s / c) * 2 ^ S) + (s % c) * 2 ^ S := by
          have hs' : s = c * (s / c) + s % c := by omega
          calc s * 2 ^ S = (c * (s / c) + s % c) * 2 ^ S := by rw [← hs']
            _ = c * ((s / c) * 2 ^ S) + (s % c) * 2 ^ S := by ring
        have hrP : 2 ^ S ≤ (s % c) * 2 ^ S := Nat.le_mul_of_pos_left _ hrpos
        have hp : 1 ≤ 2 ^ S := Nat.one_le_two_pow
        omega
      · have h1 : 2 * ((s % c) * 2 ^ S) + 2 * (2 ^ S) ≤ 2 * (c * 2 ^ S) := by
          have h2 : (s % c + 1) * 2 ^ S ≤ c * 2 ^ S := Nat.mul_le_mul_right _ (by omega)
          have e1 : (s % c + 1) * 2 ^ S = (s % c) * 2 ^ S + 2 ^ S := by ring
          omega
        have hexp : s * 2 ^ S = c * ((s / c) * 2 ^ S) + (s % c) * 2 ^ S := by
          have hs' : s = c * (s / c) + s % c := by omega
          calc s * 2 ^ S = (c * (s / c) + s % c) * 2 ^ S := by rw [← hs']
            _ = c * ((s / c) * 2 ^ S) + (s % c) * 2 ^ S := by ring
        have hp : 1 ≤ 2 ^ S := Nat.one_le_two_pow
        -- 2·c·m ≤ 2·s·2^S + c < 2·c·(k+1)·2^S
        have h3 : 2 * (c * m) < 2 * (c * ((s / c + 1) * 2 ^ S)) := by
          have e1 : 2 * (c * ((s / c + 1) * 2 ^ S)) =
              2 * (c * ((s / c) * 2 ^ S)) + 2 * (c * 2 ^ S) := by ring
          omega
        have h4 : c * m < c * ((s / c + 1) * 2 ^ S) := by omega
        exact Nat.lt_of_mul_lt_mul_left h4
  -- Step H: evaluate roundF64Pos through its branches
  rw [roundF64Pos]
  simp only [← heDef, ← hSDef, ← hmDef]
  rw [if_neg (by omega : ¬ e < -1022), if_pos (show e ≤ 52 by omega)]
  by_cases hbump : m = 2 ^ 53
  · rw [if_pos hbump, if_pos hbump]
    rw [if_neg (by omega : ¬ (1023:Int) < e + 1), if_pos (by omega : e + 1 ≤ 52)]
    refine ⟨2 ^ 52, 2 ^ (52 - (e + 1)).toNat, rfl, by positivity, ?_, ?_⟩
    · have hSm : (52 - (e + 1)).toNat = S - 1 := by omega
      rw [hSm]
      have hps : (2:Nat) ^ S = 2 * 2 ^ (S - 1) := by
        rw [← pow_succ']
        congr 1
        omega
      have h1 : (s / c) * 2 ^ S = 2 * ((s / c) * 2 ^ (S - 1)) := by
        rw [hps]
        ring
      have h53 : (2:Nat) ^ 53 = 2 * 2 ^ 52 := by ring
      omega
    · have hSm : (52 - (e + 1)).toNat = S - 1 := by omega
      rw [hSm]
      have hps : (2:Nat) ^ S = 2 * 2 ^ (S - 1) := by
        rw [← pow_succ']
        congr 1
        omega
      have h1 : (s / c + 1) * 2 ^ S = 2 * ((s / c + 1) * 2 ^ (S - 1)) := by
        rw [hps]
        ring
      have h53 : (2:Nat) ^ 53 = 2 * 2 ^ 52 := by ring
      omega
  · rw [if_neg hbump, if_neg hbump]
    rw [if_neg (by omega : ¬ (1023:Int) < e), if_pos (by omega : e ≤ 52)]
    exact ⟨m, 2 ^ S, rfl, by positivity, hbra.1, hbra.2⟩

theorem natCast_tdiv (M D : Nat) : Int.tdiv (M : Int) (D : Int) = ((M / D : Nat) : Int) := rfl

/-- IEEE-correct division by a constant c ≤ 2^52 of an integer-valued
float64 with |value| ≤ 2^52, then Go int conversion, is the truncating
integer division: in this range the rounded quotient cannot cross an
integer boundary. -/
theorem roundF64_div_toInt (sv : Int) (den c : Nat) (hden : 0 < den) (hc : 2 ≤ c)
    (hc2 : c ≤ 2 ^ 52) (hs : sv.natAbs ≤ 2 ^ 52) :
    (roundF64 ⟨sv * den, den * c⟩).toInt = Int.tdiv sv c := by
  have hlit : ((2:Nat) ^ 63 : Nat) = 9223372036854775808 := by norm_num
  have hlit52 : ((2:Nat) ^ 52 : Nat) = 4503599627370496 := by norm_num
  rcases lt_trichotomy sv 0 with hneg | hzero | hpos
  · set s := sv.natAbs with hsN
    have hsv : sv = -((s : Int)) := by omega
    have hs1 : 1 ≤ s := by omega
    have hs2 : s ≤ 2 ^ 52 := hs
    obtain ⟨M, D, hEq, hD, hk1, hk2⟩ := roundF64Pos_trunc s den c hs1 hs2 hden hc hc2
    have hpd : sv * (den : Int) < 0 := by
      have hdpos : (0:Int) < (den : Int) := by exact_mod_cast hden
      exact mul_neg_of_neg_of_pos hneg hdpos
    have hab : (sv * (den : Int)).natAbs = s * den := by
      rw [Int.natAbs_mul]
      simp [hsN]
    rw [roundF64]
    dsimp only
    rw [if_pos hpd, hab, hEq]
    simp only [GoFloat.neg, GoFloat.toInt, Frac.trunc]
    have htr : Int.tdiv (-(M : Int)) (D : Int) = -(((M / D : Nat) : Int)) := by
      rw [Int.neg_tdiv, natCast_tdiv]
    have hMD : M / D = s / c := Nat.div_eq_of_lt_le hk1 hk2
    have hsc : s / c ≤ 2 ^ 52 := le_trans (Nat.div_le_self s c) hs2
    obtain ⟨K, hKdef⟩ : ∃ K, s / c = K := ⟨s / c, rfl⟩
    rw [hKdef] at hMD hsc
    rw [htr, hMD]
    have hcond : -((2 ^ 63 : Nat) : Int) ≤ -((K : Nat) : Int) ∧
        -((K : Nat) : Int) < ((2 ^ 63 : Nat) : Int) := by
      constructor <;> omega
    rw [if_pos hcond]
    rw [hsv, Int.neg_tdiv, natCast_tdiv, hKdef]
  · subst hzero
    norm_num [roundF64, GoFloat.toInt, Frac.trunc, minInt64]
  · set s := sv.natAbs with hsN
    have hsv : sv = (s : Int) := by omega
    have hs1 : 1 ≤ s := by omega
    have hs2 : s ≤ 2 ^ 52 := hs
    obtain ⟨M, D, hEq, hD, hk1, hk2⟩ := roundF64Pos_trunc s den c hs1 hs2 hden hc hc2
    have hdpos : (0:Int) < (den : Int) := by exact_mod_cast hden
    have hpd : 0 < sv * (den : Int) := mul_pos hpos hdpos
    have hab : (sv * (den : Int)).natAbs = s * den := by
      rw [Int.natAbs_mul]
      simp [hsN]
    rw [roundF64]
    dsimp only
    rw [if_neg (by omega), if_neg (by omega), hab, hEq]
    simp only [GoFloat.toInt, Frac.trunc]
    have htr : Int.tdiv ((M : Int)) (D : Int) = (((M / D : Nat) : Int)) := natCast_tdiv M D
    have hMD : M / D = s / c := Nat.div_eq_of_lt_le hk1 hk2
    have hsc : s / c ≤ 2 ^ 52 := le_trans (Nat.div_le_self s c) hs2
    obtain ⟨K, hKdef⟩ : ∃ K, s / c = K := ⟨s / c, rfl⟩
    rw [hKdef] at hMD hsc
    rw [htr, hMD]
    have hcond : -((2 ^ 63 : Nat) : Int) ≤ ((K : Nat) : Int) ∧
        ((K : Nat) : Int) < ((2 ^ 63 : Nat) : Int) := by
      constructor <;> omega
    rw [if_pos hcond]
    rw [hsv, natCast_tdiv, hKdef]

/-- Whatever the reader appends, the accumulator is a prefix of the
final record list. -/
theorem readRecords_prefix : ∀ (fuel : Nat) (cs : List Char) (exp : Option Nat)
    (acc recs : List (List String)),
    readRecords fuel cs exp acc = Except.ok recs → ∃ suffix, recs = acc ++ suffix
  | 0, cs, exp, acc, recs, h => by
      rw [readRecords] at h
      exact Except.noConfusion h
  | fuel + 1, cs, exp, acc, recs, h => by
      match cs, h with
      | [], h =>
          rw [readRecords] at h
          injection h with h
          exact ⟨[], by simp [h]⟩
      | c :: cs', h =>
          rw [readRecords] at h
          revert h
          rcases hRL : readLine (c :: cs') with ⟨l, hadNL, rest⟩
          intro h
          dsimp only at h
          by_cases hl : l = []
          · rw [if_pos hl] at h
            exact readRecords_prefix fuel rest exp acc recs h
          · rw [if_neg hl] at h
            revert h
            rcases hRF : readFields fuel l hadNL rest [] with e | ⟨rec, rest2⟩
            · intro h
              exact Except.noConfusion h
            · intro h
              dsimp only at h
              match exp, h with
              | none, h =>
                  dsimp only at h
                  obtain ⟨suf, hs⟩ := readRecords_prefix fuel rest2 (some rec.length)
                    (acc ++ [rec]) recs h
                  exact ⟨rec :: suf, by simp [hs]⟩
              | some k, h =>
                  dsimp only at h
                  revert h
                  by_cases hk : rec.length = k
                  · rw [if_pos hk]
                    intro h
                    obtain ⟨suf, hs⟩ := readRecords_prefix fuel rest2 (some k)
                      (acc ++ [rec]) recs h
                    exact ⟨rec :: suf, by simp [hs]⟩
                  · rw [if_neg hk]
                    intro h
                    exact Except.noConfusion h

/-- Once the expected field count is fixed, every record the reader
returns has that count. -/
theorem readRecords_some_len : ∀ (fuel : Nat) (cs : List Char) (k : Nat)
    (acc recs : List (List String)),
    readRecords fuel cs (some k) acc = Except.ok recs →
    (∀ r ∈ acc, r.length = k) → ∀ r ∈ recs, r.length = k
  | 0, cs, k, acc, recs, h, hacc => by
      rw [readRecords] at h
      exact Except.noConfusion h
  | fuel + 1, cs, k, acc, recs, h, hacc => by
      match cs, h with
      | [], h =>
          rw [readRecords] at h
          injection h with h
          subst h
          exact hacc
      | c :: cs', h =>
          rw [readRecords] at h
          revert h
          rcases hRL : readLine (c :: cs') with ⟨l, hadNL, rest⟩
          intro h
          dsimp only at h
          by_cases hl : l = []
          · rw [if_pos hl] at h
            exact readRecords_some_len fuel rest k acc recs h hacc
          · rw [if_neg hl] at h
            revert h
            rcases hRF : readFields fuel l hadNL rest [] with e | ⟨rec, rest2⟩
            · intro h
              exact Except.noConfusion h
            · intro h
              dsimp only at h
              revert h
              by_cases hk : rec.length = k
              · rw [if_pos hk]
                intro h
                refine readRecords_some_len fuel rest2 k (acc ++ [rec]) recs h ?_
                intro r hr
                rcases List.mem_append.mp hr with hr | hr
                · exact hacc r hr
                · simp at hr
                  subst hr
                  exact hk
              · rw [if_neg hk]
                intro h
                exact Except.noConfusion h

/-- With no expected count yet and an empty accumulator, a successful
read returns records that all share the first record's field count. -/
theorem readRecords_none_uniform : ∀ (fuel : Nat) (cs : List Char)
    (recs : List (List String)),
    readRecords fuel cs none [] = Except.ok recs →
    ∀ r₀, recs.head? = some r₀ → ∀ r ∈ recs, r.length = r₀.length
  | 0, cs, recs, h => by
      rw [readRecords] at h
      exact Except.noConfusion h
  | fuel + 1, cs, recs, h => by
      match cs, h with
      | [], h =>
          rw [readRecords] at h
          injection h with h
          subst h
          intro r₀ hr₀
          simp at hr₀
      | c :: cs', h =>
          rw [readRecords] at h
          revert h
          rcases hRL : readLine (c :: cs') with ⟨l, hadNL, rest⟩
          intro h
          dsimp only at h
          by_cases hl : l = []
          · rw [if_pos hl] at h
            exact readRecords_none_uniform fuel rest recs h
          · rw [if_neg hl] at h
            revert h
            rcases hRF : readFields fuel l hadNL rest [] with e | ⟨rec, rest2⟩
            · intro h
              exact Except.noConfusion h
            · intro h
              dsimp only at h
              obtain ⟨suf, hs⟩ := readRecords_prefix fuel rest2 (some rec.length)
                ([] ++ [rec]) recs h
              have hlen := readRecords_some_len fuel rest2 rec.length ([] ++ [rec]) recs h
                (by intro r hr; simp at hr; subst hr; rfl)
              intro r₀ hr₀ r hr
              have hhead : r₀ = rec := by
                rw [hs] at hr₀
                simp at hr₀
                exact hr₀.symm
              rw [hhead]
              exact hlen r hr

/-- Uniform field counts in every successfully read CSV document. -/
theorem readCsv_uniform (content : String) (recs : List (List String)) (r₀ : List String)
    (h : readCsv content = Except.ok recs) (hh : recs.head? = some r₀) :
    ∀ r ∈ recs, r.length = r₀.length :=
  readRecords_none_uniform _ _ _ h r₀ hh



/-- C1 counterexample: in a run in which every stage succeeds, the Rank
Fetcher's HTTP request is issued strictly before the Label Map Loader
opens the label file, contradicting the claim that the label map is
loaded before any other stage begins. -/
theorem c1_counterexample :
    (runAction env0).1 = fullTrace ∧
    List.indexOf Stage.fetch (runAction env0).1 <
      List.indexOf Stage.loadLabels (runAction env0).1 ∧
    ¬ List.indexOf Stage.loadLabels (runAction env0).1 <
        List.indexOf Stage.fetch (runAction env0).1 := by
  have h : (runAction env0).1 = fullTrace := by rfl
  rw [h]
  exact ⟨rfl, by decide, by decide⟩

/-- C1 (amended): the Label Map Loader runs after the Rank Fetcher's
HTTP request completes and before the Report Builder's join begins, and
its output feeds only the Report Builder's join (a successful run's
output is exactly buildReport applied to the loaded map and the fetched
records). -/
theorem c1_label_load_after_fetch (env : Env) :
    (Stage.loadLabels ∈ (runAction env).1 →
      List.indexOf Stage.fetch (runAction env).1 <
        List.indexOf Stage.loadLabels (runAction env).1) ∧
    (Stage.buildRows ∈ (runAction env).1 →
      List.indexOf Stage.loadLabels (runAction env).1 <
        List.indexOf Stage.buildRows (runAction env).1) ∧
    (∀ (st et : Int) (provers : List Prover) (names : List (String × String)),
      parseDateTime env.tzOffset env.startStr = Except.ok st →
      parseDateTime env.tzOffset env.endStr = Except.ok et →
      fetchProverRankList st et env.response = Except.ok provers →
      readClusterNames env.labelFile = Except.ok names →
      runAction env = (fullTrace, Except.ok (buildReport names provers))) := by
  refine ⟨?_, ?_, fun st et provers names h1 h2 h3 h4 =>
    runAction_success env st et provers names h1 h2 h3 h4⟩ <;>
  · rcases runAction_cases env with ⟨h, -⟩ | ⟨h, -⟩ | ⟨h, -⟩ | ⟨h, -⟩ | ⟨h, -⟩ <;>
      rw [h] <;> decide

/-- C1 witness: the amended theorem applied to the all-success
environment env0. -/
theorem c1_witness :
    runAction env0 = (fullTrace, Except.ok (buildReport [("addr1", "Alice")] [])) :=
  (c1_label_load_after_fetch env0).2.2 1704164645 1704251045 [] [("addr1", "Alice")]
    rfl rfl rfl rfl

/-- C2: decoding the spec's example body (numeric fields as JSON
strings) succeeds, and the produced row has rank 1, speed-in-mega-units
displayed as "0.03" under format "0.00", hardware-count-A 2 and
hardware-count-B 0; the speed cell holds the IEEE double nearest to
30000/1000000 = 0.03, namely 8646911284551352·2^−58, which is within
2^−57 of 3/100. -/
theorem c2_example_row :
    fetchProverRankList 0 0 (some ⟨200, c2Body⟩) = Except.ok [c2Prover] ∧
    (buildRow [] 0 c2Prover).rank = "1" ∧
    formatFixed2 (buildRow [] 0 c2Prover).speedM = "0.03" ∧
    (buildRow [] 0 c2Prover).gpu3080 = 2 ∧
    (buildRow [] 0 c2Prover).gpu4090 = 0 ∧
    (buildRow [] 0 c2Prover).speedM =
      GoFloat.finite ⟨8646911284551352, 288230376151711744⟩ ∧
    |Frac.toRat ⟨8646911284551352, 288230376151711744⟩ - 3 / 100| < 1 / 2 ^ 57 := by
  refine ⟨rfl, rfl, rfl, by decide, by decide, by rfl, ?_⟩
  rw [Frac.toRat]
  rw [abs_sub_lt_iff]
  constructor <;> norm_num

/-- C3 counterexample: the body "{}" is valid JSON that does not match
the spec's expected shape (an envelope with a single array field named
data containing prover records), yet the fetch stage decodes it
successfully, contradicting the claimed "exactly when". -/
theorem c3_counterexample :
    fetchProverRankList 0 0 (some ⟨200, "\x7b\x7d"⟩) = Except.ok [] ∧
    parseJson "\x7b\x7d" = some (Json.obj []) ∧
    specEnvelope (Json.obj []) = none :=
  ⟨rfl, rfl, rfl⟩

/-- C3 (amended): on a 200 response the fetch stage fails exactly when
the body is not valid JSON or the (lenient) decoder rejects it, and for
every body that is valid JSON of the spec's expected shape it returns
the ordered record list. -/
theorem c3_decode_characterization (st et : Int) (body : String) :
    (parseJson body = none →
      fetchProverRankList st et (some ⟨200, body⟩) = Except.error "unmarshal: invalid JSON") ∧
    (∀ j, parseJson body = some j →
      fetchProverRankList st et (some ⟨200, body⟩) = decodeEnvelope j) ∧
    (∀ j ps, parseJson body = some j → specEnvelope j = some ps →
      fetchProverRankList st et (some ⟨200, body⟩) = Except.ok ps) := by
  have hbase : ∀ out, parseJson body = out →
      fetchProverRankList st et (some ⟨200, body⟩) =
        (match out with
          | none => Except.error "unmarshal: invalid JSON"
          | some j => decodeEnvelope j) := by
    intro out hout
    simp only [fetchProverRankList]
    rw [if_neg (by decide)]
    rw [hout]
    try rfl
  refine ⟨fun h => hbase none h, fun j h => hbase (some j) h, fun j ps hj hps => ?_⟩
  rw [hbase (some j) hj]
  exact decodeEnvelope_of_spec j ps hps

/-- C3 witness: the characterization applied to the concrete example
body, which is valid JSON of the expected shape. -/
theorem c3_witness :
    specEnvelope c2Json = some [c2Prover] ∧
    fetchProverRankList 7 8 (some ⟨200, c2Body⟩) = Except.ok [c2Prover] :=
  ⟨rfl, (c3_decode_characterization 7 8 c2Body).2.2 c2Json [c2Prover] rfl rfl⟩

/-- C4: whenever the HTTP response status is not 200 the fetch stage
returns an error, the run never reaches the save stage (no output file
is created, hence no partial spreadsheet), and the run's outcome is an
error. -/
theorem c4_non200_aborts (env : Env) (r : HttpResponse) (hr : env.response = some r)
    (hs : r.status ≠ 200) :
    (∀ st et : Int, fetchProverRankList st et env.response =
        Except.error ("failed to get data: " ++ toString r.status)) ∧
    Stage.save ∉ (runAction env).1 ∧
    ∀ rows : List Row, (runAction env).2 ≠ Except.ok rows := by
  have hfetch : ∀ st et : Int, fetchProverRankList st et env.response =
      Except.error ("failed to get data: " ++ toString r.status) := by
    intro st et
    rw [hr]
    simp only [fetchProverRankList]
    rw [if_pos hs]
  have hrun : ((runAction env).1 = [Stage.parseStart] ∨
        (runAction env).1 = [Stage.parseStart, Stage.parseEnd] ∨
        (runAction env).1 = [Stage.parseStart, Stage.parseEnd, Stage.fetch]) ∧
      ∃ e, (runAction env).2 = Except.error e := by
    cases hps : parseDateTime env.tzOffset env.startStr with
    | error e =>
        have h : runAction env =
            ([Stage.parseStart], Except.error ("error parsing start date and time: " ++ e)) := by
          simp [runAction, hps]
        exact ⟨Or.inl (by rw [h]), _, by rw [h]⟩
    | ok st =>
        cases hpe : parseDateTime env.tzOffset env.endStr with
        | error e =>
            have h : runAction env = ([Stage.parseStart, Stage.parseEnd],
                Except.error ("error parsing end date and time: " ++ e)) := by
              simp [runAction, hps, hpe]
            exact ⟨Or.inr (Or.inl (by rw [h])), _, by rw [h]⟩
        | ok et =>
            have h : runAction env = ([Stage.parseStart, Stage.parseEnd, Stage.fetch],
                Except.error ("error fetching prover rank list: " ++
                  ("failed to get data: " ++ toString r.status))) := by
              simp [runAction, hps, hpe, hfetch st et]
            exact ⟨Or.inr (Or.inr (by rw [h])), _, by rw [h]⟩
  refine ⟨hfetch, ?_, ?_⟩
  · rcases hrun.1 with h | h | h <;> rw [h] <;> decide
  · rcases hrun.2 with ⟨e, he⟩
    intro rows
    rw [he]
    simp

/-- C4 witness: the theorem applied to the environment whose response
has status 500. -/
theorem c4_witness :
    Stage.save ∉ (runAction env1).1 ∧
    ∀ rows : List Row, (runAction env1).2 ≠ Except.ok rows :=
  (c4_non200_aborts env1 ⟨500, "\x7b\x7d"⟩ rfl (by decide)).2

/-- C5: the report has exactly one row per fetched record, in API
order (the address column reproduces the fetched addresses in order,
with no sorting, filtering or aggregation), and the rank column is
exactly "1".."N" positionally, whatever the label map contains. -/
theorem c5_order_and_ranks (m : List (String × String)) (provers : List Prover) :
    (buildReport m provers).length = provers.length ∧
    (buildReport m provers).map Row.address = provers.map Prover.Address ∧
    (buildReport m provers).map Row.rank =
      (List.range provers.length).map (fun i => toString (i + 1)) := by
  refine ⟨buildRowsFrom_length m provers 0, buildRowsFrom_map_address m provers 0, ?_⟩
  have h := buildRowsFrom_map_rank m provers 0
  simpa using h

/-- C6 counterexample: for raw speed -1 both hardware counts are 0, not
negative, contradicting the claim's "(a negative s yields a negative
count)". -/
theorem c6_counterexample :
    (buildRow [] 0 { NetworkSpeed := "-1" }).gpu3080 = 0 ∧
    ¬ (buildRow [] 0 { NetworkSpeed := "-1" }).gpu3080 < 0 ∧
    (buildRow [] 0 { NetworkSpeed := "-1" }).gpu4090 = 0 := by
  decide

/-- C6 (amended): for a record whose raw network speed is the integer s
with |s| ≤ 2^52 (where the IEEE double divisions cannot cross an
integer boundary), hardware-count-A is the truncating integer division
of s by 15000 and hardware-count-B that by 43000, with no rounding and
no guard against negative s; a negative s yields a negative count when
s ≤ -15000, while -15000 < s < 0 yields 0.  (Past 2^52 the rounded
float64 quotient can differ from the exact one, so the counts are not
the exact truncating division there.) -/
theorem c6_hw_counts (m : List (String × String)) (i : Nat) (p : Prover) (s : Int) (f : Frac)
    (hf : (parseFloat64 p.NetworkSpeed).1 = GoFloat.finite f)
    (hnum : f.num = s * f.den) (hden : 0 < f.den)
    (hs : s.natAbs ≤ 2 ^ 52) :
    (buildRow m i p).gpu3080 = Int.tdiv s 15000 ∧
    (buildRow m i p).gpu4090 = Int.tdiv s 43000 ∧
    (s ≤ -15000 → (buildRow m i p).gpu3080 < 0) ∧
    (-15000 < s → s < 0 → (buildRow m i p).gpu3080 = 0) := by
  have key : ∀ c : Nat, 2 ≤ c → c ≤ 2 ^ 52 →
      (GoFloat.divConst (parseFloat64 p.NetworkSpeed).1 c).toInt = Int.tdiv s c := by
    intro c hc hc2
    rw [hf]
    show (roundF64 ⟨f.num, f.den * c⟩).toInt = Int.tdiv s c
    rw [hnum]
    exact roundF64_div_toInt s f.den c hden hc hc2 hs
  have h3080 : (buildRow m i p).gpu3080 = Int.tdiv s 15000 :=
    key 15000 (by norm_num) (by norm_num)
  have h4090 : (buildRow m i p).gpu4090 = Int.tdiv s 43000 :=
    key 43000 (by norm_num) (by norm_num)
  refine ⟨h3080, h4090, ?_, ?_⟩
  · intro hneg
    rw [h3080]
    exact tdiv_neg_of_le s 15000 (by norm_num) (by exact_mod_cast hneg)
  · intro hgt hlt
    rw [h3080]
    exact tdiv_eq_zero_of_small s 15000 (by norm_num) (by exact_mod_cast hgt) (by omega)

/-- C6 witness: the amended theorem applied to raw speed -30000 (whose
parsed double is -30000·2^38/2^38); count-A is -2 (negative), count-B
is 0. -/
theorem c6_witness :
    (buildRow [] 0 { NetworkSpeed := "-30000" }).gpu3080 = Int.tdiv (-30000) 15000 ∧
    (buildRow [] 0 { NetworkSpeed := "-30000" }).gpu3080 < 0 ∧
    (buildRow [] 0 { NetworkSpeed := "-30000" }).gpu4090 = Int.tdiv (-30000) 43000 := by
  have h := c6_hw_counts [] 0 { NetworkSpeed := "-30000" } (-30000)
    ⟨-8246337208320000, 274877906944⟩
    (by rfl) (by norm_num) (by norm_num) (by norm_num)
  exact ⟨h.1, h.2.2.1 (by norm_num), h.2.1⟩

/-- C7 counterexample: a second record with fewer fields than the first
is not silently skipped: csv.Reader's FieldsPerRecord check makes the
loader return a field-count error, while the two-field prefix alone
loads fine. -/
theorem c7_counterexample :
    readClusterNames (some "Alice,addr1\nBob\n") =
      Except.error "wrong number of fields" ∧
    readClusterNames (some "Alice,addr1\n") = Except.ok [("addr1", "Alice")] :=
  ⟨rfl, rfl⟩

/-- C7 (amended): on a successfully read file the loader builds the map
from the reader's records, which all share the first record's field
count (so a yielded record with fewer than two fields occurs only when
every record is that short); a yielded record with fewer than two
fields is silently skipped, duplicate addresses follow last-seen-wins
overwrite semantics, and the content "Alice,addr1\nBob,addr2\n"
produces exactly the mapping addr1 ↦ Alice, addr2 ↦ Bob (first column
label, second column address), every other address mapping to "". -/
theorem c7_label_loader :
    (∀ (content : String) (recs : List (List String)) (r₀ : List String),
        readCsv content = Except.ok recs →
        readClusterNames (some content) = Except.ok (readClusterRecords recs) ∧
        (recs.head? = some r₀ → ∀ r ∈ recs, r.length = r₀.length)) ∧
    (∀ recs : List (List String),
        readClusterRecords (recs.filter (fun r => 2 ≤ r.length)) = readClusterRecords recs) ∧
    (∀ (recs : List (List String)) (label addr : String) (rest : List String),
        mapLookup (readClusterRecords (recs ++ [label :: addr :: rest])) addr = label) ∧
    (∀ k : String,
        readClusterNames (some "Alice,addr1\nBob,addr2\n") =
          Except.ok [("addr2", "Bob"), ("addr1", "Alice")] ∧
        mapLookup [("addr2", "Bob"), ("addr1", "Alice")] k =
          if k = "addr1" then "Alice" else if k = "addr2" then "Bob" else "") := by
  refine ⟨?_, readClusterRecords_filter, ?_, ?_⟩
  · intro content recs r₀ hok
    constructor
    · simp only [readClusterNames, hok]
    · exact fun hh => readCsv_uniform content recs r₀ hok hh
  · intro recs label addr rest
    rw [readClusterRecords_append, mapLookup_head]
  · intro k
    refine ⟨rfl, ?_⟩
    by_cases h1 : k = "addr1"
    · subst h1; rfl
    · by_cases h2 : k = "addr2"
      · subst h2; rfl
      · rw [mapLookup_cons_ne _ _ _ (fun hh => h2 hh.symm),
          mapLookup_cons_ne _ _ _ (fun hh => h1 hh.symm)]
        simp [mapLookup, h1, h2]

/-- C7 witness: the amended theorem applied to the example file, whose
csv read succeeds with two uniform two-field records. -/
theorem c7_witness :
    readClusterNames (some "Alice,addr1\nBob,addr2\n") =
      Except.ok (readClusterRecords [["Alice", "addr1"], ["Bob", "addr2"]]) :=
  (c7_label_loader.1 "Alice,addr1\nBob,addr2\n" [["Alice", "addr1"], ["Bob", "addr2"]]
    ["Alice", "addr1"] rfl).1

/-- C8: label lookup is a total function; when a row's address is
absent from the loaded mapping its label cell is the empty string,
never an error. -/
theorem c8_lookup_total (recs : List (List String)) (i : Nat) (p : Prover)
    (h : p.Address ∉ (readClusterRecords recs).map Prod.fst) :
    (buildRow (readClusterRecords recs) i p).label = "" := by
  show mapLookup (readClusterRecords recs) p.Address = ""
  exact mapLookup_absent _ _ h

/-- C8 witness: lookup of an address missing from a one-entry map. -/
theorem c8_witness :
    (buildRow (readClusterRecords [["Alice", "addr1"]]) 0 { Address := "zzz" }).label = "" := by
  apply c8_lookup_total
  decide

/-- C9 counterexample: neither "2024-01-02 3:04:05" (single-digit hour:
Go's reference layout 15 accepts one or two digits) nor
"2024-01-02 03:04:05.5" (fractional second accepted after the seconds
chunk even though the layout has none) is in the literal
YYYY-MM-DD HH:MM:SS format, yet parseDateTime accepts both,
contradicting "for every string not matching the format, parsing
fails". -/
theorem c9_counterexample :
    parseDateTime 0 "2024-01-02 3:04:05" = Except.ok 1704164645 ∧
    strictFormat "2024-01-02 3:04:05" = false ∧
    parseDateTime 0 "2024-01-02 03:04:05.5" = Except.ok 1704164645 ∧
    strictFormat "2024-01-02 03:04:05.5" = false :=
  ⟨rfl, rfl, rfl, rfl⟩

/-- C9 (amended): parseDateTime accepts exactly the strings rendering a
valid date-time in the strict format or in its single-digit-hour
variant, optionally followed by a fractional second (a period or comma
and one or more digits, discarded); on success the epoch value is the
civil conversion of the parsed wall clock and converting the epoch back
to local time (fixed offset) reproduces that wall clock exactly
(round-trip); every other string is rejected with a parse error. -/
theorem c9_parse_roundtrip :
    (∀ (off : Int) (s : String) (t : Int), parseDateTime off s = Except.ok t →
      ∃ dt frac, validDT dt ∧ fracOkB frac = true ∧
        (s.toList = renderChars dt ++ frac ∨
          (dt.hour < 10 ∧ s.toList = renderLaxChars dt ++ frac)) ∧
        t = dtToUnix off dt ∧ unixToDateTime off t = dt) ∧
    (∀ (off : Int) (dt : DateTime) (frac : List Char), validDT dt → fracOkB frac = true →
      parseDateTime off (String.mk (renderChars dt ++ frac)) = Except.ok (dtToUnix off dt) ∧
      (dt.hour < 10 →
        parseDateTime off (String.mk (renderLaxChars dt ++ frac)) =
          Except.ok (dtToUnix off dt))) ∧
    (∀ (off : Int) (s : String),
      (∀ dt frac, validDT dt → fracOkB frac = true →
        s.toList ≠ renderChars dt ++ frac ∧ s.toList ≠ renderLaxChars dt ++ frac) →
      ∃ e, parseDateTime off s = Except.error e) := by
  have hsound : ∀ (off : Int) (s : String) (t : Int), parseDateTime off s = Except.ok t →
      ∃ dt frac, validDT dt ∧ fracOkB frac = true ∧
        (s.toList = renderChars dt ++ frac ∨
          (dt.hour < 10 ∧ s.toList = renderLaxChars dt ++ frac)) ∧
        t = dtToUnix off dt ∧ unixToDateTime off t = dt := by
    intro off s t h
    unfold parseDateTime at h
    cases hp : parseLayout s.toList with
    | none => rw [hp] at h; exact Except.noConfusion h
    | some dt =>
        rw [hp] at h
        injection h with ht
        obtain ⟨hval, frac, hfrac, hren⟩ := parseLayout_sound s.toList dt hp
        obtain ⟨h0, h9999, hmo1, hmo2, hd1, hd2, hhh, hmmi, hss⟩ := hval
        refine ⟨dt, frac, ⟨h0, h9999, hmo1, hmo2, hd1, hd2, hhh, hmmi, hss⟩, hfrac, hren,
          ht.symm, ?_⟩
        rw [← ht]
        exact unix_roundtrip off dt hmo1 hmo2 hd1 hd2 hhh hmmi hss
  refine ⟨hsound, ?_, ?_⟩
  · intro off dt frac hval hfrac
    obtain ⟨hc, hlax⟩ := parseLayout_complete dt hval frac hfrac
    constructor
    · show (match parseLayout (String.mk (renderChars dt ++ frac)).toList with
        | none => Except.error "cannot parse as layout 2006-01-02 15:04:05"
        | some dt => Except.ok (dtToUnix off dt)) = _
      rw [show (String.mk (renderChars dt ++ frac)).toList = renderChars dt ++ frac from rfl,
        hc]
    · intro h10
      show (match parseLayout (String.mk (renderLaxChars dt ++ frac)).toList with
        | none => Except.error "cannot parse as layout 2006-01-02 15:04:05"
        | some dt => Except.ok (dtToUnix off dt)) = _
      rw [show (String.mk (renderLaxChars dt ++ frac)).toList = renderLaxChars dt ++ frac
          from rfl,
        hlax h10]
  · intro off s hno
    cases hp : parseLayout s.toList with
    | none =>
        refine ⟨"cannot parse as layout 2006-01-02 15:04:05", ?_⟩
        unfold parseDateTime
        rw [hp]
    | some dt =>
        exfalso
        obtain ⟨hval, frac, hfrac, hren⟩ := parseLayout_sound s.toList dt hp
        rcases hren with h | ⟨_, h⟩
        · exact (hno dt frac hval hfrac).1 h
        · exact (hno dt frac hval hfrac).2 h

/-- C9 witness: the amended theorem applied to the wall clock
2024-01-02 13:04:05 with fractional suffix ".5" at offset +3600. -/
theorem c9_witness :
    validDT ⟨2024, 1, 2, 13, 4, 5⟩ ∧ fracOkB ['.', '5'] = true ∧
    parseDateTime 3600 (String.mk (renderChars ⟨2024, 1, 2, 13, 4, 5⟩ ++ ['.', '5'])) =
      Except.ok (dtToUnix 3600 ⟨2024, 1, 2, 13, 4, 5⟩) :=
  ⟨by decide, by decide,
    (c9_parse_roundtrip.2.1 3600 ⟨2024, 1, 2, 13, 4, 5⟩ ['.', '5'] (by decide) (by decide)).1⟩

/-- C10: a failed Float64 conversion never aborts the run: the row
always carries the value component of the conversion (the error
component is discarded), and a run whose fetched records include one
with a failing conversion still completes through the save stage. -/
theorem c10_float_error_discarded (m : List (String × String)) (i : Nat) (p : Prover) :
    (buildRow m i p).totalCredits = (parseFloat64 p.TotalPuzzleCredits).1 ∧
    (buildRow m i p).dailyCredits = (parseFloat64 p.DailyPuzzleCredits).1 ∧
    (buildRow m i p).speedM = GoFloat.divConst (parseFloat64 p.NetworkSpeed).1 1000000 ∧
    (∀ (env : Env) (st et : Int) (provers : List Prover) (names : List (String × String)),
      parseDateTime env.tzOffset env.startStr = Except.ok st →
      parseDateTime env.tzOffset env.endStr = Except.ok et →
      fetchProverRankList st et env.response = Except.ok provers →
      readClusterNames env.labelFile = Except.ok names →
      p ∈ provers → (parseFloat64 p.TotalPuzzleCredits).2 = true →
      runAction env = (fullTrace, Except.ok (buildReport names provers))) :=
  ⟨rfl, rfl, rfl, fun env st et provers names h1 h2 h3 h4 _ _ =>
    runAction_success env st et provers names h1 h2 h3 h4⟩

/-- C10 witness: a record whose TotalPuzzleCredits is 1e999 overflows
Float64 (error flag set, value +Inf); the row carries +Inf and the run
still saves. -/
theorem c10_witness :
    (buildRow [] 0 p10).totalCredits = GoFloat.posInf ∧
    (parseFloat64 p10.TotalPuzzleCredits).2 = true ∧
    runAction env2 = (fullTrace, Except.ok (buildReport [] [p10])) :=
  ⟨((c10_float_error_discarded [] 0 p10).1).trans (by rfl), by rfl,
    (c10_float_error_discarded [] 0 p10).2.2.2 env2 1704164645 1704251045 [p10] []
      rfl rfl rfl rfl (by decide) (by rfl)⟩


end ProverRank
